import Mathlib

/-!
Verification of the UI-element locator synthesis engine
(`src/locators/locator-generation.ts`, `src/locators/generate-all-locators.ts`,
`src/locators/source-parsing.ts`, `src/locators/element-filter.ts`).

The TypeScript sources are shallowly embedded: DOM element nodes become a rose
tree `Elem`, a parsed document `XDoc` is the list of element children of the
DOM document node, JavaScript plain objects used as string records become
association lists with JavaScript insertion/overwrite semantics, exceptions
become `Except`/`Option`, and the XPath queries the code builds by string
interpolation are represented by a structured form `XQuery` together with a
renderer producing exactly the interpolated strings and an evaluator giving
the document-order node-set semantics of `//tag[@a="v" and ...]` queries.
The interpolated string is then re-parsed by `parseXPathQuery`, a parser for
exactly the conjunction fragment the code emits: an XPath string literal
extends to the next double quote, so an attribute value containing double
quotes reinterprets the query (it can inject further conjuncts, or break the
parse).  Injected text outside this fragment (any other XPath form) is
treated as a parse failure, which the code turns into the caught-exception
path.
-/

/-- A DOM element node: tag name, attributes in document order, element
children.  Text nodes never matter to the embedded code (`childNodesOf`
filters on `ELEMENT_NODE`), so they are omitted. -/
inductive Elem where
  | mk (tag : String) (attrs : List (String × String)) (children : List Elem)
deriving Repr, Inhabited

def Elem.tag : Elem → String
  | .mk t _ _ => t

def Elem.attrs : Elem → List (String × String)
  | .mk _ a _ => a

def Elem.children : Elem → List Elem
  | .mk _ _ c => c

/-- A parsed XML document, represented by the element children of the DOM
document node (`childNodesOf(doc)`); a well-formed document has exactly one. -/
structure XDoc where
  children : List Elem
deriving Repr, Inhabited

/-- JavaScript object property read (`r[k]`): `none` is `undefined`. -/
def recordGet (r : List (String × String)) (k : String) : Option String :=
  (r.find? (fun e => e.1 = k)).map (·.2)

/-- JavaScript object property write (`r[k] = v`): overwriting keeps the key's
original insertion position, a fresh key is appended. -/
def recordSet (r : List (String × String)) (k v : String) : List (String × String) :=
  if r.any (fun e => e.1 = k) then
    r.map (fun e => if e.1 = k then (k, v) else e)
  else r ++ [(k, v)]

/-- JavaScript truthy read of a string property: `undefined` and the empty
string are both falsy. -/
def truthyGet (r : List (String × String)) (k : String) : Option String :=
  match recordGet r k with
  | some v => if v = "" then none else some v
  | none => none

/-- Object spread `{ ...a, ...b }`. -/
def recordMerge (a b : List (String × String)) : List (String × String) :=
  b.foldl (fun r kv => recordSet r kv.1 kv.2) a

/-- Element attribute read (`getAttribute`), `none` when absent. -/
def Elem.getAttr (e : Elem) (a : String) : Option String :=
  recordGet e.attrs a

/-- Element attribute read with JavaScript emptiness treated as absence, as in
the sources' `if (!attrValue) continue` / `if (_.isEmpty(attrValue)) continue`. -/
def Elem.truthyAttr (e : Elem) (a : String) : Option String :=
  truthyGet e.attrs a

/-- String.replace(/"/g, '') from `areAttrAndValueUnique`. -/
def stripQuotes (s : String) : String :=
  ⟨s.data.filter (fun c => c ≠ '"')⟩

/-- attr.value.replace(/(\n)/gm, '\\n') from `xmlToJSON`: each newline becomes
the two-character sequence backslash-n. -/
def escapeNewlines (s : String) : String :=
  ⟨s.data.flatMap (fun c => if c = '\n' then ['\\', 'n'] else [c])⟩

/-- JavaScript Array.prototype.indexOf: -1 when the value is absent. -/
def jsIndexOf {α : Type} [DecidableEq α] (l : List α) (x : α) : Int :=
  match l.findIdx? (fun y => y = x) with
  | some i => (i : Int)
  | none => -1

/-- JavaScript String.prototype.includes (substring containment). -/
def jsIncludes (s sub : String) : Bool :=
  (List.range (s.data.length + 1)).any (fun i => sub.data.isPrefixOf (s.data.drop i))

/-- Addresses of element nodes: the head index selects a child of the DOM
document node, the remaining indices descend through element children. -/
abbrev Addr := List Nat

/-- Navigate inside an element by a path of element-child indices. -/
def getNodeIn : Elem → List Nat → Option Elem
  | e, [] => some e
  | e, i :: rest =>
    match e.children[i]? with
    | some c => getNodeIn c rest
    | none => none

/-- Navigate from the document by a (nonempty) forest address. -/
def nodeAt (doc : XDoc) : Addr → Option Elem
  | [] => none
  | i :: rest =>
    match doc.children[i]? with
    | some c => getNodeIn c rest
    | none => none

mutual

/-- Document-order (pre-order) listing of an element's subtree, each node
paired with its address. -/
def preorderE (pre : Addr) (e : Elem) : List (Addr × Elem) :=
  match e with
  | .mk t a cs => (pre, .mk t a cs) :: preorderL pre 0 cs

/-- Document-order listing of a list of sibling subtrees starting at child
index `i`. -/
def preorderL (pre : Addr) (i : Nat) (cs : List Elem) : List (Addr × Elem) :=
  match cs with
  | [] => []
  | c :: rest => preorderE (pre ++ [i]) c ++ preorderL pre (i + 1) rest

end

/-- Document-order listing of every element in the document. -/
def docPreorder (doc : XDoc) : List (Addr × Elem) :=
  preorderL [] 0 doc.children

/-- Structured form of the XPath queries the code interpolates:
`//tag[@a1="v1" and @a2="v2" and ...]`, with `tag = none` standing for `*`
and an empty condition list for a bare `//tag`. -/
structure XQuery where
  tag : Option String
  conds : List (String × String)
deriving Repr, DecidableEq

/-- Rendering of one attribute condition, exactly as interpolated. -/
def renderCond (c : String × String) : String :=
  "@" ++ c.1 ++ "=\"" ++ c.2 ++ "\""

/-- Rendering of a query, exactly as the source interpolates it. -/
def renderQuery (q : XQuery) : String :=
  "//" ++ (q.tag.getD "*") ++
    (match q.conds with
     | [] => ""
     | cs => "[" ++ String.intercalate " and " (cs.map renderCond) ++ "]")

/-- A character allowed in the name tests and attribute names of the
interpolated queries (XML name characters as the emitted tags and attribute
names use them; a colon would need a namespace resolver and makes the
evaluation throw, so it is excluded). -/
def isNameChar (c : Char) : Bool :=
  c.isAlphanum || c = '-' || c = '.' || c = '_'

/-- A nonempty name made of name characters. -/
def validName (s : String) : Bool :=
  s ≠ "" && s.data.all isNameChar

/-- Split a character list at every double quote (the quote characters are
dropped; an XPath string literal extends to the next double quote, so these
are the lexer's literal boundaries). -/
def splitOnQuote : List Char → List (List Char)
  | [] => [[]]
  | c :: rest =>
    if c = '"' then [] :: splitOnQuote rest
    else
      match splitOnQuote rest with
      | [] => [[c]]
      | seg :: segs => (c :: seg) :: segs

/-- Parse a name test: `*` or a nonempty name, returning the remainder. -/
def parseNameTest (cs : List Char) : Option (Option String × List Char) :=
  if cs.take 1 = ['*'] then some (none, cs.drop 1)
  else
    let nm := cs.takeWhile isNameChar
    if nm.isEmpty then none else some (some ⟨nm⟩, cs.drop nm.length)

/-- Parse the segment before the first string literal:
`//nametest` (no conditions expected) or `//nametest[@name=` (conditions
expected), returning the name test and the first attribute name. -/
def parseHeadSeg (cs : List Char) (hasConds : Bool) : Option (Option String × Option String) :=
  if cs.take 2 = ['/', '/'] then
    match parseNameTest (cs.drop 2) with
    | none => none
    | some (tag, cs2) =>
      if hasConds then
        if cs2.take 2 = ['[', '@'] then
          let cs3 := cs2.drop 2
          let nm := cs3.takeWhile isNameChar
          if nm.isEmpty then none
          else if cs3.drop nm.length = ['='] then some (tag, some ⟨nm⟩)
          else none
        else none
      else if cs2.isEmpty then some (tag, none) else none
  else none

/-- Parse a between-literals segment ` and @name=`, returning the attribute
name. -/
def parseMidSeg (cs : List Char) : Option String :=
  if cs.take 6 = [' ', 'a', 'n', 'd', ' ', '@'] then
    let cs1 := cs.drop 6
    let nm := cs1.takeWhile isNameChar
    if nm.isEmpty then none
    else if cs1.drop nm.length = ['='] then some ⟨nm⟩
    else none
  else none

/-- Parse the alternating literal/structure segments after the head: each
literal closes the pending condition, then either the final `]` or a further
` and @name=` segment follows. -/
def parseCondSegs : List (List Char) → String → Option (List (String × String))
  | v :: s :: rest, curName =>
    if s = [']'] ∧ rest = [] then some [(curName, ⟨v⟩)]
    else
      match parseMidSeg s with
      | some nm2 =>
        (parseCondSegs rest nm2).map (fun conds => (curName, ⟨v⟩) :: conds)
      | none => none
  | _, _ => none

/-- Parse an interpolated query string back into structured form, the way
the XPath engine lexes it: quotes delimit string literals, and the
surrounding text must form `//nametest[@a1="v1" and @a2="v2" and ...]` (or a
bare `//nametest`).  A value containing double quotes therefore shifts the
literal boundaries — injecting extra conjuncts when the in-between text fits
the grammar, and otherwise failing to parse. -/
def parseXPathQueryChars (cs : List Char) : Option XQuery :=
  match splitOnQuote cs with
  | [] => none
  | [s0] =>
    (match parseHeadSeg s0 false with
     | some (tag, _) => some ⟨tag, []⟩
     | none => none)
  | s0 :: rest =>
    match parseHeadSeg s0 true with
    | some (tag, some nm1) =>
      (parseCondSegs rest nm1).map (fun conds => ⟨tag, conds⟩)
    | _ => none

/-- Parse an interpolated query string. -/
def parseXPathQuery (s : String) : Option XQuery :=
  parseXPathQueryChars s.data

/-- XPath predicate semantics of `[@a="v"]`: the attribute exists and has
exactly that value. -/
def elemMatches (q : XQuery) (e : Elem) : Bool :=
  (match q.tag with
   | none => true
   | some t => e.tag = t) &&
  q.conds.all (fun c => e.getAttr c.1 = some c.2)

/-- Node-set value of `//tag[...]` evaluated from the document root, in
document order, as addresses. -/
def evalQuery (doc : XDoc) (q : XQuery) : List Addr :=
  (docPreorder doc).filterMap (fun pe => if elemMatches q pe.2 then some pe.1 else none)

/-- Number of elements of the document carrying attribute `a` with exact
value `v` (specification-side counting function for claim C5). -/
def countAttrValue (doc : XDoc) (a v : String) : Nat :=
  ((docPreorder doc).filter (fun pe => pe.2.getAttr a = some v)).length

/-- areAttrAndValueUnique from locator-generation.ts: absent source document
is optimistically unique; otherwise evaluate `//*[@attrName="<value with
quotes stripped>"]` and demand fewer than two matches.  (The call sites pass
fixed, parse-safe attribute names, so the interpolated query always parses.) -/
def areAttrAndValueUnique (attrName attrValue : String) (sourceDoc : Option XDoc) : Bool :=
  match sourceDoc with
  | none => true
  | some doc =>
    (evalQuery doc ⟨none, [(attrName, stripQuotes attrValue)]⟩).length < 2

/-- SIMPLE_STRATEGY_MAPPINGS from locator-generation.ts. -/
def SIMPLE_STRATEGY_MAPPINGS : List (String × String) :=
  [("name", "accessibility id"),
   ("content-desc", "accessibility id"),
   ("id", "id"),
   ("rntestid", "id"),
   ("resource-id", "id"),
   ("class", "class name"),
   ("type", "class name")]

/-- Loop body of getSimpleSuggestedLocators, made explicitly recursive over
the strategy-mapping list for ease of induction. -/
def simpleLoop (attributes : List (String × String)) (sourceDoc : Option XDoc)
    (isNative : Bool) : List (String × String) → List (String × String) →
    List (String × String)
  | [], res => res
  | (strategyAlias, strategy) :: rest, res =>
    if strategy = "accessibility id" ∧ isNative = false then
      simpleLoop attributes sourceDoc isNative rest res
    else
      match truthyGet attributes strategyAlias with
      | some value =>
        if areAttrAndValueUnique strategyAlias value sourceDoc then
          simpleLoop attributes sourceDoc isNative rest (recordSet res strategy value)
        else
          simpleLoop attributes sourceDoc isNative rest res
      | none => simpleLoop attributes sourceDoc isNative rest res

/-- getSimpleSuggestedLocators from locator-generation.ts. -/
def getSimpleSuggestedLocators (attributes : List (String × String))
    (sourceDoc : Option XDoc) (isNative : Bool) : List (String × String) :=
  simpleLoop attributes sourceDoc isNative SIMPLE_STRATEGY_MAPPINGS []

/-- UNIQUE_XPATH_ATTRIBUTES from locator-generation.ts (considered in order). -/
def UNIQUE_XPATH_ATTRIBUTES : List String :=
  ["name", "content-desc", "id", "resource-id", "accessibility-id"]

/-- MAYBE_UNIQUE_XPATH_ATTRIBUTES from locator-generation.ts. -/
def MAYBE_UNIQUE_XPATH_ATTRIBUTES : List String := ["label", "text", "value"]

/-- CHECKED_CLASS_CHAIN_ATTRIBUTES from locator-generation.ts. -/
def CHECKED_CLASS_CHAIN_ATTRIBUTES : List String := ["name", "label", "value"]

/-- CHECKED_PREDICATE_ATTRIBUTES from locator-generation.ts. -/
def CHECKED_PREDICATE_ATTRIBUTES : List String := ["name", "label", "value", "type"]

/-- CHECKED_UIAUTOMATOR_ATTRIBUTES from locator-generation.ts. -/
def CHECKED_UIAUTOMATOR_ATTRIBUTES : List (String × String) :=
  [("resource-id", "resourceId"),
   ("text", "text"),
   ("content-desc", "description"),
   ("class", "className")]

/-- References to DOM nodes as the embedded code passes them around:
`undefRef` is the JavaScript value `undefined` (any property access throws),
`docNode` is the DOM document node (nodeType 9, nodeName `#document`), and
`elem` is an element node given by its forest address. -/
inductive NodeRef where
  | undefRef
  | docNode
  | elem (addr : Addr)
deriving Repr, DecidableEq

/-- findDOMNodeByPath from source-parsing.ts.  An empty document throws; the
empty path string splits to `['']`, `parseInt('')` is `NaN`, and indexing by
`NaN` silently yields `undefined` (as does any dangling path, because
`childNodesOf` uses optional chaining). -/
def findDOMNodeByPathE (doc : XDoc) (path : List Nat) : Except String NodeRef :=
  match doc.children[0]? with
  | none => .error "No element found in document"
  | some root =>
    match path with
    | [] => .ok .undefRef
    | _ =>
      match getNodeIn root path with
      | some _ => .ok (.elem (0 :: path))
      | none => .ok .undefRef

/-- nodeName of a node's `parentNode`, as the embedded code reads it: a
top-level element's parent is the document node whose nodeName is the
nonempty string `#document`. -/
def parentNameOf (doc : XDoc) (addr : Addr) : Option String :=
  if addr.length ≤ 1 then some "#document"
  else (nodeAt doc addr.dropLast).map (·.tag)

/-- The `domNode.nodeName || '*'` name test used when interpolating queries. -/
def tagForXpathOf (e : Elem) : Option String :=
  if e.tag = "" then none else some e.tag

/-- determineXpathUniqueness from locator-generation.ts.  It receives the
interpolated string, so it works on the reparse of the rendered query: a
string that fails to parse counts as not unique with no index; otherwise the
query the string ACTUALLY denotes is evaluated, and with more than one match
the index of the target in the match list is reported (JavaScript `indexOf`,
so -1 if absent); one or zero matches count as unique. -/
def determineXpathUniqueness (doc : XDoc) (q : XQuery) (target : Addr) :
    Bool × Option Int :=
  match parseXPathQuery (renderQuery q) with
  | none => (false, none)
  | some qP =>
    let ms := evalQuery doc qP
    if ms.length > 1 then (false, some (jsIndexOf ms target))
    else (true, none)

/-- Structured form of the XPath expressions getUniqueXPath returns:
a plain query, the single-slash root form `/tag`, or a query qualified by a
1-based positional index `(query)[i]`. -/
inductive UXp where
  | plain (q : XQuery)
  | rootTag (t : String)
  | indexed (q : XQuery) (i : Int)
deriving Repr, DecidableEq

/-- Rendering of a returned expression, exactly as the source interpolates it. -/
def renderUXp : UXp → String
  | .plain q => renderQuery q
  | .rootTag t => "/" ++ t
  | .indexed q i => "(" ++ renderQuery q ++ ")[" ++ toString i ++ "]"

/-- XPath node-set semantics of a returned expression, applied to its
RENDERED string (what a client actually evaluates): the query part is
re-parsed the same way the uniqueness check parses it, so a quote-injected
value denotes the reinterpreted query; `/tag` selects the document's
top-level elements with that tag; `(q)[i]` selects the i-th match of `q`
(1-based) when it exists. -/
def evalUXp (doc : XDoc) : UXp → List Addr
  | .plain q =>
    (match parseXPathQuery (renderQuery q) with
     | some qP => evalQuery doc qP
     | none => [])
  | .rootTag t =>
    doc.children.enum.filterMap (fun ic => if ic.2.tag = t then some [ic.1] else none)
  | .indexed q i =>
    match parseXPathQuery (renderQuery q) with
    | none => []
    | some qP =>
      let ms := evalQuery doc qP
      if 1 ≤ i ∧ i ≤ (ms.length : Int) then
        match ms[(i - 1).toNat]? with
        | some a => [a]
        | none => []
      else []

/-- The `attrs` parameter of getUniqueXPath: a list of single attribute names
or a list of attribute-name pairs; an empty list of either kind is the
node-name case (`isNodeName = attrs.length === 0`). -/
inductive AttrsSpec where
  | singles (l : List String)
  | pairs (l : List (String × String))
deriving Repr

/-- Node-name case of getUniqueXPath: `//<nodeName>` accepted only when truly
unique, with the (dead, see C7) root special case switching to `/<nodeName>`
when the parent's nodeName is falsy. -/
def guxNodeName (doc : XDoc) (node : Elem) (addr : Addr) (parentNm : Option String) :
    Option UXp × Option Bool :=
  let q : XQuery := ⟨some node.tag, []⟩
  match determineXpathUniqueness doc q addr with
  | (true, _) =>
    if parentNm.getD "" = "" then (some (.rootTag node.tag), some true)
    else (some (.plain q), some true)
  | (false, _) => (none, none)

/-- Single-attribute loop of getUniqueXPath, carrying the first semi-unique
candidate found so far. -/
def guxSinglesLoop (doc : XDoc) (node : Elem) (addr : Addr) (tagX : Option String) :
    List String → Option (XQuery × Int) → Option UXp × Option Bool
  | [], semi =>
    match semi with
    | some (q, i) => (some (.indexed q (i + 1)), some false)
    | none => (none, none)
  | a :: rest, semi =>
    match node.truthyAttr a with
    | none => guxSinglesLoop doc node addr tagX rest semi
    | some v =>
      let q : XQuery := ⟨tagX, [(a, v)]⟩
      match determineXpathUniqueness doc q addr with
      | (true, _) => (some (.plain q), some true)
      | (false, some i) =>
        guxSinglesLoop doc node addr tagX rest
          (if semi.isNone then some (q, i) else semi)
      | (false, none) => guxSinglesLoop doc node addr tagX rest semi

/-- Attribute-pair loop of getUniqueXPath. -/
def guxPairsLoop (doc : XDoc) (node : Elem) (addr : Addr) (tagX : Option String) :
    List (String × String) → Option (XQuery × Int) → Option UXp × Option Bool
  | [], semi =>
    match semi with
    | some (q, i) => (some (.indexed q (i + 1)), some false)
    | none => (none, none)
  | (a1, a2) :: rest, semi =>
    match node.truthyAttr a1, node.truthyAttr a2 with
    | some v1, some v2 =>
      let q : XQuery := ⟨tagX, [(a1, v1), (a2, v2)]⟩
      (match determineXpathUniqueness doc q addr with
       | (true, _) => (some (.plain q), some true)
       | (false, some i) =>
         guxPairsLoop doc node addr tagX rest
           (if semi.isNone then some (q, i) else semi)
       | (false, none) => guxPairsLoop doc node addr tagX rest semi)
    | _, _ => guxPairsLoop doc node addr tagX rest semi

/-- getUniqueXPath from locator-generation.ts. -/
def getUniqueXPath (doc : XDoc) (node : Elem) (addr : Addr) (parentNm : Option String) :
    AttrsSpec → Option UXp × Option Bool
  | .singles [] => guxNodeName doc node addr parentNm
  | .pairs [] => guxNodeName doc node addr parentNm
  | .singles l => guxSinglesLoop doc node addr (tagForXpathOf node) l none
  | .pairs l => guxPairsLoop doc node addr (tagForXpathOf node) l none

/-- The pairwise permutations `attrsForPairs.flatMap((v1, i) =>
attrsForPairs.slice(i + 1).map(v2 => [v1, v2]))` from getOptimalXPath. -/
def attrPairsPermutations : List (String × String) :=
  let l := UNIQUE_XPATH_ATTRIBUTES ++ MAYBE_UNIQUE_XPATH_ATTRIBUTES
  l.enum.flatMap (fun iv => (l.drop (iv.1 + 1)).map (fun v2 => (iv.2, v2)))

/-- The ordered case list of getOptimalXPath (base cases 2 through 5). -/
def xpathCases : List AttrsSpec :=
  [.singles UNIQUE_XPATH_ATTRIBUTES,
   .pairs attrPairsPermutations,
   .singles MAYBE_UNIQUE_XPATH_ATTRIBUTES,
   .singles []]

/-- Case loop of getOptimalXPath: return the first fully unique expression
immediately; hold on to the first semi-unique expression otherwise; `none`
means falling through to the hierarchical expression. -/
def xpathCasesLoop (doc : XDoc) (node : Elem) (addr : Addr) (parentNm : Option String) :
    List AttrsSpec → Option UXp → Option UXp
  | [], semi => semi
  | c :: rest, semi =>
    match getUniqueXPath doc node addr parentNm c with
    | (x, some true) => x
    | (x, _) =>
      xpathCasesLoop doc node addr parentNm rest
        (match semi, x with
         | none, some u => some u
         | _, _ => semi)

/-- JavaScript `parent + xpath` where `parent` may be `null` (string
concatenation coerces `null` to the string "null"). -/
def jsConcatNull (o : Option String) (s : String) : String :=
  (match o with
   | some t => t
   | none => "null") ++ s

/-- The `[index + 1]` sibling-ordinal suffix shared by getOptimalXPath and
getOptimalClassChain: among the parent's element children of the same tag
(the parent of a top-level element being the document node), append a 1-based
index only when there is more than one such sibling. -/
def siblingIndexSuffix (doc : XDoc) (addr : Addr) (node : Elem) : String :=
  let parentChildren : List Elem :=
    if addr.length ≤ 1 then doc.children
    else
      match nodeAt doc addr.dropLast with
      | some p => p.children
      | none => []
  let sibs := parentChildren.enum.filter (fun ic => ic.2.tag = node.tag)
  match addr.getLast? with
  | some myIdx =>
    if sibs.length > 1 then
      "[" ++ toString (jsIndexOf (sibs.map (fun ic => ic.1)) myIdx + 1) ++ "]"
    else ""
  | none => ""

/-- getOptimalXPath from locator-generation.ts, on an element address; the
recursion climbs to the parent for the hierarchical fallback and the document
node contributes the empty prefix (base case 1).  The structural fuel is the
address length, which bounds the parent chain (an exhausted fuel coincides
with the empty address, where the node lookup fails). -/
def getOptimalXPathFuel (doc : XDoc) : Nat → Addr → Option String
  | 0, _ => none
  | fuel + 1, addr =>
    match nodeAt doc addr with
    | none => none
    | some node =>
      if node.tag = "" then some ""
      else
        match xpathCasesLoop doc node addr (parentNameOf doc addr) xpathCases none with
        | some u => some (renderUXp u)
        | none =>
          let xpath := "/" ++ node.tag ++ siblingIndexSuffix doc addr node
          let parentRes : Option String :=
            if addr.length ≤ 1 then some ""
            else getOptimalXPathFuel doc fuel addr.dropLast
          some (jsConcatNull parentRes xpath)

/-- getOptimalXPath on an element address. -/
def getOptimalXPathGo (doc : XDoc) (addr : Addr) : Option String :=
  getOptimalXPathFuel doc addr.length addr

/-- getOptimalXPath on a node reference: property access on `undefined`
throws, is caught, logged, and yields null; the document node is base case 1. -/
def getOptimalXPathRef (doc : XDoc) : NodeRef → Option String
  | .undefRef => none
  | .docNode => some ""
  | .elem addr => getOptimalXPathGo doc addr

/-- Attribute loop of getOptimalClassChain: the first attribute present on the
node yields a chain segment, qualified by a 1-based index when the matching
query selects more than one node; a query that fails to parse moves on to the
next attribute. -/
def classChainLoop (doc : XDoc) (node : Elem) (addr : Addr) :
    List String → Option String
  | [] => none
  | a :: rest =>
    match node.truthyAttr a with
    | none => classChainLoop doc node addr rest
    | some v =>
      let q : XQuery := ⟨tagForXpathOf node, [(a, v)]⟩
      let seg := "/" ++ ((tagForXpathOf node).getD "*") ++ "[`" ++ a ++ " == \"" ++ v ++ "\"`]"
      match parseXPathQuery (renderQuery q) with
      | some qP =>
        let ms := evalQuery doc qP
        if ms.length > 1 then
          some (seg ++ "[" ++ toString (jsIndexOf ms addr + 1) ++ "]")
        else some seg
      | none => classChainLoop doc node addr rest

/-- getOptimalClassChain from locator-generation.ts, on an element address,
with the same structural fuel as getOptimalXPathFuel. -/
def getOptimalClassChainFuel (doc : XDoc) : Nat → Addr → Option String
  | 0, _ => none
  | fuel + 1, addr =>
    match nodeAt doc addr with
    | none => none
    | some node =>
      if node.tag = "" ∨ node.tag = "XCUIElementTypeApplication" then some ""
      else
        match classChainLoop doc node addr CHECKED_CLASS_CHAIN_ATTRIBUTES with
        | some classChain => some classChain
        | none =>
          let classChain := "/" ++ node.tag ++ siblingIndexSuffix doc addr node
          let parentRes : Option String :=
            if addr.length ≤ 1 then some ""
            else getOptimalClassChainFuel doc fuel addr.dropLast
          some (jsConcatNull parentRes classChain)

/-- getOptimalClassChain on an element address. -/
def getOptimalClassChainGo (doc : XDoc) (addr : Addr) : Option String :=
  getOptimalClassChainFuel doc addr.length addr

/-- getOptimalClassChain on a node reference. -/
def getOptimalClassChainRef (doc : XDoc) : NodeRef → Option String
  | .undefRef => none
  | .docNode => some ""
  | .elem addr => getOptimalClassChainGo doc addr

/-- Attribute loop of getOptimalPredicateString: clauses accumulate (they are
pushed before the query is evaluated, so a clause whose query fails to parse
stays in the conjunction); return as soon as the accumulated conjunction
matches exactly one node. -/
def predicateLoop (doc : XDoc) (node : Elem) :
    List String → List (String × String) → List String → Option String
  | [], _, _ => none
  | a :: rest, conds, preds =>
    match node.truthyAttr a with
    | none => predicateLoop doc node rest conds preds
    | some v =>
      let conds := conds ++ [(a, v)]
      let preds := preds ++ [a ++ " == \"" ++ v ++ "\""]
      let q : XQuery := ⟨none, conds⟩
      match parseXPathQuery (renderQuery q) with
      | some qP =>
        if (evalQuery doc qP).length = 1 then some (String.intercalate " AND " preds)
        else predicateLoop doc node rest conds preds
      | none => predicateLoop doc node rest conds preds

/-- getOptimalPredicateString from locator-generation.ts. -/
def getOptimalPredicateStringRef (doc : XDoc) : NodeRef → Option String
  | .undefRef => none
  | .docNode => some ""
  | .elem addr =>
    match nodeAt doc addr with
    | none => none
    | some node =>
      if node.tag = "" then some ""
      else predicateLoop doc node CHECKED_PREDICATE_ATTRIBUTES [] []

/-- The JavaScript condition `!othersWithAttrMinCount ||
othersWithAttr.length < othersWithAttrMinCount` (0 is falsy). -/
def jsMinCountBeats (minCount : Option Nat) (n : Nat) : Bool :=
  match minCount with
  | none => true
  | some m => if m = 0 then true else n < m

/-- Attribute loop of getOptimalUiAutomatorSelector: a unique attribute is
returned immediately; otherwise the selector with the fewest matches is kept,
qualified by a 0-based `.instance(...)` index. -/
def uiAutoLoop (newDoc : XDoc) (newNode : Elem) (newAddr : Addr) :
    List (String × String) → Option Nat → Option String → Option String
  | [], _, mostUniqueSelector => mostUniqueSelector
  | (attrName, attrTranslation) :: rest, minCount, mostUniqueSelector =>
    match newNode.truthyAttr attrName with
    | none => uiAutoLoop newDoc newNode newAddr rest minCount mostUniqueSelector
    | some v =>
      let q : XQuery := ⟨some newNode.tag, [(attrName, v)]⟩
      let uiSelector := "new UiSelector()." ++ attrTranslation ++ "(\"" ++ v ++ "\")"
      match parseXPathQuery (renderQuery q) with
      | some qP =>
        let ms := evalQuery newDoc qP
        if ms.length = 1 then some uiSelector
        else if jsMinCountBeats minCount ms.length then
          uiAutoLoop newDoc newNode newAddr rest (some ms.length)
            (some (uiSelector ++ ".instance(" ++ toString (jsIndexOf ms newAddr) ++ ")"))
        else uiAutoLoop newDoc newNode newAddr rest minCount mostUniqueSelector
      | none => uiAutoLoop newDoc newNode newAddr rest minCount mostUniqueSelector

/-- getOptimalUiAutomatorSelector from locator-generation.ts.  The rebuilt
sub-document (`domToXML` then `xmlToDOM` of `<dummy>...</dummy>`) is the
document whose single child is a `dummy` element wrapping the last direct
child of the hierarchy. -/
def getOptimalUiAutomatorSelectorE (doc : XDoc) (ref : NodeRef) (path : List Nat) :
    Option String :=
  match ref with
  | .undefRef => none
  | .docNode => some ""
  | .elem addr =>
    match nodeAt doc addr with
    | none => none
    | some node =>
      if node.tag = "" then some ""
      else
        let docChildren := doc.children
        let hierarchyChildren : List Elem :=
          match docChildren[0]? with
          | none => []
          | some h => h.children
        if hierarchyChildren.isEmpty then none
        else
          let lastHierarchyChildIndex := hierarchyChildren.length - 1
          match path with
          | [] => none
          | p0 :: prest =>
            if p0 ≠ lastHierarchyChildIndex then none
            else
              match hierarchyChildren[lastHierarchyChildIndex]? with
              | none => none
              | some lastHierarchyChild =>
                let newDoc : XDoc := ⟨[Elem.mk "dummy" [] [lastHierarchyChild]]⟩
                let newPath := 0 :: prest
                match findDOMNodeByPathE newDoc newPath with
                | .error _ => none
                | .ok .undefRef => none
                | .ok .docNode => none
                | .ok (.elem newAddr) =>
                  match nodeAt newDoc newAddr with
                  | none => none
                  | some newNode =>
                    uiAutoLoop newDoc newNode newAddr CHECKED_UIAUTOMATOR_ATTRIBUTES none none

/-- JSON form of an element, as produced by xmlToJSON from source-parsing.ts;
the path is the dot-separated index string, represented structurally (the
root's empty string is the empty list). -/
inductive JSONElement where
  | mk (children : List JSONElement) (tagName : String)
       (attributes : List (String × String)) (path : List Nat)
deriving Repr, Inhabited

def JSONElement.children : JSONElement → List JSONElement
  | .mk c _ _ _ => c

def JSONElement.tagName : JSONElement → String
  | .mk _ t _ _ => t

def JSONElement.attributes : JSONElement → List (String × String)
  | .mk _ _ a _ => a

def JSONElement.path : JSONElement → List Nat
  | .mk _ _ _ p => p

/-- Attribute translation of xmlToJSON: every attribute value has its
newlines escaped to the literal two-character sequence backslash-n. -/
def escapeAttrs (as : List (String × String)) : List (String × String) :=
  as.foldl (fun r kv => recordSet r kv.1 (escapeNewlines kv.2)) []

mutual

/-- translateRecursively from xmlToJSON. -/
def translateRec (e : Elem) (path : List Nat) : JSONElement :=
  match e with
  | .mk t as cs => .mk (translateRecL cs path 0) t (escapeAttrs as) path

/-- Child translation of xmlToJSON (`childNodesOf(domNode).map(...)`). -/
def translateRecL (cs : List Elem) (path : List Nat) (i : Nat) : List JSONElement :=
  match cs with
  | [] => []
  | c :: rest => translateRec c (path ++ [i]) :: translateRecL rest path (i + 1)

end

/-- xmlToJSON from source-parsing.ts: translate the first element child of the
document, or return the empty-tree sentinel.  (In this model the
`documentElement` fallback coincides with the first branch: when the document
has no element children there is no documentElement either.) -/
def xmlToJSON (doc : XDoc) : JSONElement :=
  match doc.children[0]? with
  | some firstChild => translateRec firstChild []
  | none => .mk [] "" [] []

/-- FilterOptions from element-filter.ts; `none` is an omitted field. -/
structure FilterOptions where
  includeTagNames : Option (List String) := none
  excludeTagNames : Option (List String) := none
  requireAttributes : Option (List String) := none
  minAttributeCount : Option Nat := none
  fetchableOnly : Option Bool := none
  clickableOnly : Option Bool := none
deriving Repr, Inhabited

/-- matchesTagFilters from element-filter.ts. -/
def matchesTagFilters (el : JSONElement) (includeTagNames excludeTagNames : List String) :
    Bool :=
  if includeTagNames.length > 0 ∧ ¬ includeTagNames.contains el.tagName then false
  else if excludeTagNames.contains el.tagName then false
  else true

/-- matchesAttributeFilters from element-filter.ts (`Object.keys(attributes)`
has one key per stored attribute). -/
def matchesAttributeFilters (el : JSONElement) (requireAttributes : List String)
    (minAttributeCount : Nat) : Bool :=
  if requireAttributes.length > 0 ∧
      ¬ requireAttributes.any (fun a => (truthyGet el.attributes a).isSome) then false
  else if el.attributes.length < minAttributeCount then false
  else true

/-- The platform-specific interactable tag list from isInteractableElement. -/
def interactableTagsFor (isNative : Bool) (automationName : String) : List String :=
  if isNative ∧ automationName = "uiautomator2" then
    ["EditText", "Button", "ImageButton", "CheckBox", "RadioButton", "Switch",
     "ToggleButton", "TextView"]
  else
    ["XCUIElementTypeTextField", "XCUIElementTypeSecureTextField",
     "XCUIElementTypeButton", "XCUIElementTypeImage", "XCUIElementTypeSwitch",
     "XCUIElementTypeStaticText", "XCUIElementTypeTextView",
     "XCUIElementTypeCell", "XCUIElementTypeLink"]

/-- isInteractableElement from element-filter.ts (`tagName.includes(tag)` is a
substring test). -/
def isInteractableElement (el : JSONElement) (isNative : Bool) (automationName : String) :
    Bool :=
  (interactableTagsFor isNative automationName).any (fun t => jsIncludes el.tagName t) ||
    decide (recordGet el.attributes "clickable" = some "true") ||
    decide (recordGet el.attributes "focusable" = some "true")

/-- shouldIncludeElement from element-filter.ts, with its destructuring
defaults (excludeTagNames defaults to the synthetic `hierarchy` wrapper). -/
def shouldIncludeElement (el : JSONElement) (filters : FilterOptions)
    (isNative : Bool) (automationName : String) : Bool :=
  let includeTagNames := filters.includeTagNames.getD []
  let excludeTagNames := filters.excludeTagNames.getD ["hierarchy"]
  let requireAttributes := filters.requireAttributes.getD []
  let minAttributeCount := filters.minAttributeCount.getD 0
  let fetchableOnly := filters.fetchableOnly.getD false
  let clickableOnly := filters.clickableOnly.getD false
  if ¬ matchesTagFilters el includeTagNames excludeTagNames then false
  else if ¬ matchesAttributeFilters el requireAttributes minAttributeCount then false
  else if clickableOnly ∧ ¬ (recordGet el.attributes "clickable" = some "true") then false
  else if fetchableOnly ∧ ¬ isInteractableElement el isNative automationName then false
  else true

/-- getComplexSuggestedLocators from locator-generation.ts: the error thrown
by findDOMNodeByPath on an empty document propagates (`Except.error`);
per-strategy nulls are dropped by `_.omitBy(_, _.isNil)` (which keeps empty
strings); the class-chain value is prefixed `**` and a falsy chain becomes
null. -/
def getComplexSuggestedLocatorsE (doc : XDoc) (path : List Nat)
    (isNative : Bool) (automationName : String) :
    Except String (List (String × String)) := do
  let domNode ← findDOMNodeByPathE doc path
  let platformPart : List (String × Option String) :=
    if isNative ∧ (automationName = "xcuitest" ∨ automationName = "mac2") then
      [("-ios class chain",
        match getOptimalClassChainRef doc domNode with
        | some s => if s = "" then none else some ("**" ++ s)
        | none => none),
       ("-ios predicate string", getOptimalPredicateStringRef doc domNode)]
    else if isNative ∧ automationName = "uiautomator2" then
      [("-android uiautomator", getOptimalUiAutomatorSelectorE doc domNode path)]
    else []
  let complexLocators := platformPart ++ [("xpath", getOptimalXPathRef doc domNode)]
  pure (complexLocators.filterMap (fun kv => kv.2.map (fun v => (kv.1, v))))

/-- The native predicate-string platform priority list from
getSuggestedLocators. -/
def iosPriorityOrder : List String :=
  ["id", "accessibility id", "-ios predicate string", "-ios class chain",
   "xpath", "class name"]

/-- The uiautomator2 priority list from getSuggestedLocators. -/
def androidPriorityOrder : List String :=
  ["id", "accessibility id", "xpath", "-android uiautomator", "class name"]

/-- The fallback priority list from getSuggestedLocators. -/
def defaultPriorityOrder : List String := ["id", "class name", "xpath"]

/-- Priority-list selection from getSuggestedLocators. -/
def priorityOrderFor (isNative : Bool) (automationName : String) : List String :=
  if isNative ∧ (automationName = "xcuitest" ∨ automationName = "mac2") then
    iosPriorityOrder
  else if isNative ∧ automationName = "uiautomator2" then androidPriorityOrder
  else defaultPriorityOrder

/-- getSuggestedLocators from locator-generation.ts: merge simple and complex
locators, list the truthy entries of the priority list in order, then append
the remaining keys in insertion order.  (The trailing `.filter` only
re-checks value types and is the identity in this typed model.) -/
def getSuggestedLocatorsE (selectedElement : JSONElement) (doc : XDoc)
    (isNative : Bool) (automationName : String) :
    Except String (List (String × String)) := do
  let simpleLocators :=
    getSimpleSuggestedLocators selectedElement.attributes (some doc) isNative
  let complexLocators ←
    getComplexSuggestedLocatorsE doc selectedElement.path isNative automationName
  let allLocators := recordMerge simpleLocators complexLocators
  let priorityOrder := priorityOrderFor isNative automationName
  let sorted := priorityOrder.filterMap (fun strategy =>
    match truthyGet allLocators strategy with
    | some v => some (strategy, v)
    | none => none)
  let rest := allLocators.filter (fun kv => ¬ priorityOrder.contains kv.1)
  pure (sorted ++ rest)

/-- ElementWithLocators from generate-all-locators.ts. -/
structure ElementWithLocators where
  tagName : String
  locators : List (String × String)
  text : String
  contentDesc : String
  resourceId : String
  clickable : Bool
  enabled : Bool
  displayed : Bool
deriving Repr, DecidableEq, Inhabited

/-- transformElementWithLocators from generate-all-locators.ts
(`Object.fromEntries` builds a record with JavaScript key semantics; the
validity filter is the identity on typed pairs). -/
def transformElementWithLocators (el : JSONElement)
    (locators : List (String × String)) : ElementWithLocators :=
  ⟨el.tagName,
   locators.foldl (fun r kv => recordSet r kv.1 kv.2) [],
   (recordGet el.attributes "text").getD "",
   (recordGet el.attributes "content-desc").getD "",
   (recordGet el.attributes "resource-id").getD "",
   decide (recordGet el.attributes "clickable" = some "true"),
   decide (recordGet el.attributes "enabled" = some "true"),
   decide (recordGet el.attributes "displayed" = some "true")⟩

/-- processElement from generate-all-locators.ts: filtered-out elements
contribute nothing; an error escaping getSuggestedLocators is caught, logged,
and the element is skipped. -/
def processElement (doc : XDoc) (el : JSONElement) (isNative : Bool)
    (automationName : String) (filters : FilterOptions) : List ElementWithLocators :=
  if ¬ shouldIncludeElement el filters isNative automationName then []
  else
    match getSuggestedLocatorsE el doc isNative automationName with
    | .ok strategyMap => [transformElementWithLocators el strategyMap]
    | .error _ => []

mutual

/-- traverseAndProcessElements from generate-all-locators.ts: process the
current element, then recurse into all children regardless of the filter
outcome, accumulating in pre-order. -/
def traverseAndProcessElements (doc : XDoc) (el : JSONElement) (isNative : Bool)
    (automationName : String) (filters : FilterOptions) : List ElementWithLocators :=
  match el with
  | .mk children tagName attributes path =>
    processElement doc (.mk children tagName attributes path)
        isNative automationName filters ++
      traverseChildren doc children isNative automationName filters

/-- Child traversal (`element.children.forEach(...)`). -/
def traverseChildren (doc : XDoc) (els : List JSONElement) (isNative : Bool)
    (automationName : String) (filters : FilterOptions) : List ElementWithLocators :=
  match els with
  | [] => []
  | e :: rest =>
    traverseAndProcessElements doc e isNative automationName filters ++
      traverseChildren doc rest isNative automationName filters

end

/-- generateAllElementLocators from generate-all-locators.ts.  xmlToJSON
always returns a (truthy) object — the empty-tree sentinel included — so the
`if (sourceJSON)` guard never skips the traversal.  Parsing is deterministic,
so the document parsed again inside getSuggestedLocators is the same `doc`. -/
def generateAllElementLocators (doc : XDoc) (isNative : Bool)
    (automationName : String) (filters : FilterOptions) : List ElementWithLocators :=
  traverseAndProcessElements doc (xmlToJSON doc) isNative automationName filters

mutual

/-- Pre-order listing of a JSON element tree (specification-side, used to
state per-node independence of the traversal). -/
def jsonPreorder (el : JSONElement) : List JSONElement :=
  match el with
  | .mk children tagName attributes path =>
    JSONElement.mk children tagName attributes path :: jsonPreorderL children

/-- Pre-order listing of a list of JSON sibling trees. -/
def jsonPreorderL (els : List JSONElement) : List JSONElement :=
  match els with
  | [] => []
  | e :: rest => jsonPreorder e ++ jsonPreorderL rest

end

/-! Basic lemmas about the embedding. -/

theorem filterMap_if_eq_map_filter {α β : Type} (l : List α) (p : α → Bool) (f : α → β) :
    (l.filterMap (fun x => if p x then some (f x) else none)) = (l.filter p).map f := by
  induction l with
  | nil => rfl
  | cons x xs ih =>
    by_cases h : p x
    · simp [List.filterMap_cons, List.filter_cons, h, ih]
    · simp [List.filterMap_cons, List.filter_cons, h, ih]

theorem length_evalQuery (doc : XDoc) (q : XQuery) :
    (evalQuery doc q).length =
      ((docPreorder doc).filter (fun pe => elemMatches q pe.2)).length := by
  rw [evalQuery, filterMap_if_eq_map_filter, List.length_map]

theorem elemMatches_single (a v : String) (e : Elem) :
    elemMatches ⟨none, [(a, v)]⟩ e = decide (e.getAttr a = some v) := by
  simp [elemMatches]

theorem stripQuotes_eq_self {s : String} (h : '"' ∉ s.data) : stripQuotes s = s := by
  cases s with
  | mk data =>
    simp only [stripQuotes]
    congr 1
    apply List.filter_eq_self.mpr
    intro c hc
    simp only [ne_eq, decide_eq_true_eq]
    rintro rfl
    exact h hc

theorem mem_singleton_of_mem_of_length_lt {α : Type} {l : List α} {x : α}
    (hx : x ∈ l) (hl : l.length < 2) : l = [x] := by
  match l, hx with
  | [y], hx =>
    rcases List.mem_singleton.mp hx with rfl
    rfl
  | y :: z :: rest, _ => exact absurd hl (by simp)

theorem getNodeIn_append (e : Elem) (q1 q2 : List Nat) :
    getNodeIn e (q1 ++ q2) = (getNodeIn e q1).bind (fun m => getNodeIn m q2) := by
  induction q1 generalizing e with
  | nil => simp [getNodeIn]
  | cons i rest ih =>
    simp only [List.cons_append, getNodeIn]
    cases h : e.children[i]? with
    | none => rfl
    | some c => exact ih c

theorem mem_preorderL_of_get (cs : List Elem) (pre : Addr) :
    ∀ (i j : Nat) (c : Elem) (x : Addr × Elem), cs[j]? = some c →
      x ∈ preorderE (pre ++ [i + j]) c → x ∈ preorderL pre i cs := by
  induction cs with
  | nil => intro i j c x h; simp at h
  | cons c0 rest ih =>
    intro i j c x h hx
    match j, h with
    | 0, h =>
      simp only [List.getElem?_cons_zero, Option.some.injEq] at h
      subst h
      simp only [preorderL, List.mem_append]
      exact Or.inl hx
    | j' + 1, h =>
      simp only [List.getElem?_cons_succ] at h
      simp only [preorderL, List.mem_append]
      refine Or.inr (ih (i + 1) j' c x h ?_)
      have : i + 1 + j' = i + (j' + 1) := by omega
      rwa [this]

theorem mem_preorderE_of_getNodeIn (q : List Nat) :
    ∀ (e e' : Elem) (pre : Addr), getNodeIn e q = some e' →
      (pre ++ q, e') ∈ preorderE pre e := by
  induction q with
  | nil =>
    intro e e' pre h
    simp only [getNodeIn, Option.some.injEq] at h
    subst h
    cases e with
    | mk t a cs => simp [preorderE]
  | cons i rest ih =>
    intro e e' pre h
    simp only [getNodeIn] at h
    cases hc : e.children[i]? with
    | none => rw [hc] at h; exact absurd h (by simp)
    | some c =>
      rw [hc] at h
      have hmem := ih c e' (pre ++ [i]) h
      cases e with
      | mk t a cs =>
        simp only [preorderE, List.mem_cons]
        refine Or.inr ?_
        have h0 : pre ++ [0 + i] = pre ++ [i] := by simp
        have := mem_preorderL_of_get cs pre 0 i c (pre ++ [i] ++ rest, e')
          (by simpa [Elem.children] using hc) (by rwa [h0])
        simpa [List.append_assoc] using this

theorem nodeAt_eq_getNodeIn (doc : XDoc) (i : Nat) (rest : List Nat) :
    nodeAt doc (i :: rest) = getNodeIn (Elem.mk "" [] doc.children) (i :: rest) := by
  rfl

theorem nodeAt_mem_docPreorder {doc : XDoc} {p : Addr} {e : Elem}
    (h : nodeAt doc p = some e) : (p, e) ∈ docPreorder doc := by
  match p with
  | [] => simp [nodeAt] at h
  | i :: rest =>
    rw [nodeAt_eq_getNodeIn] at h
    have := mem_preorderE_of_getNodeIn (i :: rest) (Elem.mk "" [] doc.children) e [] h
    simp only [List.nil_append, preorderE] at this
    rcases List.mem_cons.mp this with heq | hmem
    · exact absurd (congrArg Prod.fst heq) (by simp)
    · exact hmem

theorem mem_evalQuery_of_matches {doc : XDoc} {p : Addr} {e : Elem} {q : XQuery}
    (hn : nodeAt doc p = some e) (hm : elemMatches q e = true) :
    p ∈ evalQuery doc q := by
  rw [evalQuery]
  apply List.mem_filterMap.mpr
  exact ⟨(p, e), nodeAt_mem_docPreorder hn, by simp [hm]⟩

/-- C5: areAttrAndValueUnique is exactly the check that fewer than two
elements of the whole tree carry the attribute with the quote-stripped value,
and an absent or empty tree counts as unique. -/
theorem C5_attr_value_uniqueness :
    (∀ (a v : String) (doc : XDoc),
      areAttrAndValueUnique a v (some doc) =
        decide (countAttrValue doc a (stripQuotes v) < 2)) ∧
    (∀ a v, areAttrAndValueUnique a v none = true) ∧
    (∀ a v, areAttrAndValueUnique a v (some ⟨[]⟩) = true) := by
  refine ⟨?_, fun a v => rfl, fun a v => rfl⟩
  intro a v doc
  have hlen : (evalQuery doc ⟨none, [(a, stripQuotes v)]⟩).length =
      countAttrValue doc a (stripQuotes v) := by
    rw [length_evalQuery, countAttrValue]
    congr 1
    apply List.filter_congr
    intro pe _
    rw [elemMatches_single]
  simp only [areAttrAndValueUnique, hlen]

/-- Well-formedness of a parsed document: every element has a nonempty tag
name (guaranteed by XML parsing). -/
def wfTags (doc : XDoc) : Bool :=
  (docPreorder doc).all (fun pe => pe.2.tag ≠ "")

theorem wf_tag_ne {doc : XDoc} (hwf : wfTags doc = true) {p : Addr} {e : Elem}
    (h : nodeAt doc p = some e) : e.tag ≠ "" := by
  have hmem := nodeAt_mem_docPreorder h
  have := List.all_eq_true.mp hwf _ hmem
  simpa using this

theorem nodeAt_eq_getNodeIn_root {doc : XDoc} {p : Addr} (h : p ≠ []) :
    nodeAt doc p = getNodeIn (Elem.mk "" [] doc.children) p := by
  cases p with
  | nil => exact absurd rfl h
  | cons i rest => rfl

theorem nodeAt_dropLast_isSome {doc : XDoc} {p : Addr} {e : Elem}
    (h : nodeAt doc p = some e) (hlen : 2 ≤ p.length) :
    ∃ par, nodeAt doc p.dropLast = some par := by
  have hpne : p ≠ [] := by
    intro hp; rw [hp] at hlen; simp at hlen
  have hdne : p.dropLast ≠ [] := by
    intro hd
    have := List.length_dropLast p
    rw [hd] at this
    simp at this
    omega
  rw [nodeAt_eq_getNodeIn_root hpne] at h
  rw [nodeAt_eq_getNodeIn_root hdne]
  have hsplit : p.dropLast ++ [p.getLast hpne] = p := List.dropLast_append_getLast hpne
  rw [← hsplit, getNodeIn_append] at h
  cases hpar : getNodeIn (Elem.mk "" [] doc.children) p.dropLast with
  | none => rw [hpar] at h; simp at h
  | some par => exact ⟨par, rfl⟩

theorem parentName_ne_empty {doc : XDoc} (hwf : wfTags doc = true) {p : Addr} {e : Elem}
    (h : nodeAt doc p = some e) : (parentNameOf doc p).getD "" ≠ "" := by
  rw [parentNameOf]
  by_cases hl : p.length ≤ 1
  · rw [if_pos hl]; simp
  · rw [if_neg hl]
    obtain ⟨par, hpar⟩ := nodeAt_dropLast_isSome h (by omega)
    rw [hpar]
    simpa using wf_tag_ne hwf hpar

theorem truthyGet_eq_some {r : List (String × String)} {k v : String}
    (h : truthyGet r k = some v) : recordGet r k = some v ∧ v ≠ "" := by
  unfold truthyGet at h
  cases hg : recordGet r k with
  | none => rw [hg] at h; simp at h
  | some w =>
    rw [hg] at h
    dsimp only at h
    by_cases hw : w = ""
    · rw [if_pos hw] at h; simp at h
    · rw [if_neg hw] at h
      rw [Option.some_inj] at h
      subst h
      exact ⟨rfl, hw⟩

theorem elemMatches_tag_self (node : Elem) :
    (match tagForXpathOf node with
     | none => true
     | some t => decide (node.tag = t)) = true := by
  rw [tagForXpathOf]
  by_cases h : node.tag = ""
  · rw [if_pos h]
  · rw [if_neg h]; simp

theorem elemMatches_self_single {node : Elem} {a v : String}
    (hv : node.truthyAttr a = some v) :
    elemMatches ⟨tagForXpathOf node, [(a, v)]⟩ node = true := by
  obtain ⟨hg, _⟩ := truthyGet_eq_some hv
  simp only [elemMatches, List.all_cons, List.all_nil, Bool.and_true]
  rw [Bool.and_eq_true]
  constructor
  · exact elemMatches_tag_self node
  · simpa [Elem.getAttr] using hg

theorem elemMatches_self_pair {node : Elem} {a1 v1 a2 v2 : String}
    (hv1 : node.truthyAttr a1 = some v1) (hv2 : node.truthyAttr a2 = some v2) :
    elemMatches ⟨tagForXpathOf node, [(a1, v1), (a2, v2)]⟩ node = true := by
  obtain ⟨hg1, _⟩ := truthyGet_eq_some hv1
  obtain ⟨hg2, _⟩ := truthyGet_eq_some hv2
  simp only [elemMatches, List.all_cons, List.all_nil, Bool.and_true]
  rw [Bool.and_eq_true, Bool.and_eq_true]
  refine ⟨elemMatches_tag_self node, ?_, ?_⟩
  · simpa [Elem.getAttr] using hg1
  · simpa [Elem.getAttr] using hg2

theorem elemMatches_self_tagOnly (node : Elem) :
    elemMatches ⟨some node.tag, []⟩ node = true := by
  simp [elemMatches]

/-- String.mk of a string's data is the string itself. -/
theorem mk_data (s : String) : (⟨s.data⟩ : String) = s := by
  cases s
  rfl

theorem data_ne_nil {s : String} (h : s ≠ "") : s.data ≠ [] := by
  intro hd
  exact h (by cases s with | mk d => cases hd; rfl)

/-- Well-formed optional tag: absent (rendered `*`) or a valid name. -/
def wfTag : Option String → Bool
  | none => true
  | some t => validName t

/-- Well-formed conditions: valid attribute names, quote-free values. -/
def wfConds (cs : List (String × String)) : Bool :=
  cs.all (fun c => validName c.1 && decide ('"' ∉ c.2.data))

/-- Well-formed query: its rendering re-parses to itself. -/
def wfQuery (q : XQuery) : Bool :=
  wfTag q.tag && wfConds q.conds

theorem validName_parts {s : String} (h : validName s = true) :
    s.data ≠ [] ∧ ∀ c ∈ s.data, isNameChar c = true := by
  rw [validName, Bool.and_eq_true] at h
  refine ⟨data_ne_nil (by simpa using h.1), ?_⟩
  intro c hc
  exact List.all_eq_true.mp h.2 c hc

theorem nameChars_no_quote {s : String} (h : validName s = true) : '"' ∉ s.data := by
  intro hq
  have := (validName_parts h).2 _ hq
  simp [isNameChar] at this

theorem takeWhile_all {p : Char → Bool} : ∀ {l : List Char}, (∀ c ∈ l, p c = true) →
    l.takeWhile p = l
  | [], _ => rfl
  | c :: r, h => by
    rw [List.takeWhile_cons, h c (by simp)]
    rw [takeWhile_all (fun x hx => h x (by simp [hx]))]
    simp

theorem takeWhile_append_not {p : Char → Bool} {l : List Char} (c : Char) (r : List Char)
    (h : ∀ x ∈ l, p x = true) (hc : p c = false) :
    (l ++ c :: r).takeWhile p = l := by
  induction l with
  | nil => simp [List.takeWhile_cons, hc]
  | cons x xs ih =>
    rw [List.cons_append, List.takeWhile_cons, h x (by simp)]
    rw [ih (fun y hy => h y (by simp [hy]))]
    simp

theorem splitOnQuote_ne_nil : ∀ l : List Char, splitOnQuote l ≠ []
  | [] => by simp [splitOnQuote]
  | c :: rest => by
    rw [splitOnQuote]
    by_cases hc : c = '"'
    · rw [if_pos hc]; simp
    · rw [if_neg hc]
      cases hs : splitOnQuote rest with
      | nil => simp
      | cons s ss => simp

theorem splitOnQuote_no_quote : ∀ {l : List Char}, '"' ∉ l → splitOnQuote l = [l]
  | [], _ => rfl
  | c :: rest, h => by
    have hc : c ≠ '"' := fun hc => h (by simp [hc])
    rw [splitOnQuote, if_neg hc, splitOnQuote_no_quote (fun hm => h (by simp [hm]))]

theorem splitOnQuote_quote (l : List Char) :
    splitOnQuote ('"' :: l) = [] :: splitOnQuote l := by
  rw [splitOnQuote, if_pos rfl]

theorem splitOnQuote_append : ∀ (l1 : List Char) {l2 : List Char} {s : List Char}
    {ss : List (List Char)}, '"' ∉ l1 → splitOnQuote l2 = s :: ss →
    splitOnQuote (l1 ++ l2) = (l1 ++ s) :: ss
  | [], l2, s, ss, _, h2 => by simpa using h2
  | c :: cr, l2, s, ss, h1, h2 => by
    have hc : c ≠ '"' := fun hc => h1 (by simp [hc])
    rw [List.cons_append, splitOnQuote, if_neg hc,
      splitOnQuote_append cr (fun hm => h1 (by simp [hm])) h2]
    exact rfl

theorem splitOnQuote_qf_quote {l1 : List Char} (tail : List Char) (h : '"' ∉ l1) :
    splitOnQuote (l1 ++ '"' :: tail) = l1 :: splitOnQuote tail := by
  cases hs : splitOnQuote tail with
  | nil => exact absurd hs (splitOnQuote_ne_nil tail)
  | cons s ss =>
    have hq : splitOnQuote ('"' :: tail) = [] :: s :: ss := by
      rw [splitOnQuote_quote, hs]
    rw [splitOnQuote_append l1 h hq, List.append_nil]

/-- The tail of `String.intercalate`: separator before every element. -/
def joinTail (s : String) : List String → String
  | [] => ""
  | a :: as => s ++ a ++ joinTail s as

theorem intercalate_go_eq (s : String) : ∀ (l : List String) (acc : String),
    String.intercalate.go acc s l = acc ++ joinTail s l
  | [], acc => by simp [String.intercalate.go, joinTail]
  | a :: as, acc => by
    rw [String.intercalate.go, intercalate_go_eq s as (acc ++ s ++ a), joinTail]
    simp [String.append_assoc]

theorem intercalate_eq_joinTail (s a : String) (as : List String) :
    String.intercalate s (a :: as) = a ++ joinTail s as := by
  rw [String.intercalate, intercalate_go_eq]

/-- Character form of the rendered conjunction after the first condition. -/
def condsJoinSuffix : List (String × String) → List Char
  | [] => []
  | (a, v) :: rest => (" and @" ++ a ++ "=\"").data ++ v.data ++ '"' :: condsJoinSuffix rest

/-- Expected literal segments after the head for the remaining conditions. -/
def condTailSegs : List (String × String) → List (List Char)
  | [] => [[']']]
  | (a, v) :: rest => (" and @" ++ a ++ "=").data :: v.data :: condTailSegs rest

theorem joinTail_data (rest : List (String × String)) :
    (joinTail " and " (rest.map renderCond)).data = condsJoinSuffix rest := by
  induction rest with
  | nil => rfl
  | cons c cr ih =>
    rcases c with ⟨a, v⟩
    rw [List.map_cons, joinTail, condsJoinSuffix]
    simp only [String.data_append, renderCond, ih]
    simp [String.data_append, List.append_assoc]

theorem midSeg_data (a : String) :
    (" and @" ++ a ++ "=").data = [' ', 'a', 'n', 'd', ' ', '@'] ++ (a.data ++ ['=']) := by
  simp [String.data_append]

theorem midSeg_quote_data (a : String) :
    (" and @" ++ a ++ "=\"").data = (" and @" ++ a ++ "=").data ++ ['"'] := by
  simp [String.data_append]

theorem midSeg_no_quote {a : String} (h : validName a = true) :
    '"' ∉ (" and @" ++ a ++ "=").data := by
  rw [midSeg_data]
  intro hm
  rcases List.mem_append.mp hm with hm1 | hm2
  · simp at hm1
  · rcases List.mem_append.mp hm2 with hm3 | hm4
    · exact nameChars_no_quote h hm3
    · simp at hm4

theorem midSeg_ne_close (a : String) : (" and @" ++ a ++ "=").data ≠ [']'] := by
  rw [midSeg_data]
  intro h
  simp at h

theorem condTail_split : ∀ {rest : List (String × String)}, wfConds rest = true →
    splitOnQuote (condsJoinSuffix rest ++ [']']) = condTailSegs rest := by
  intro rest
  induction rest with
  | nil => intro _; decide
  | cons c cr ih =>
    rcases c with ⟨a, v⟩
    intro h
    rw [wfConds, List.all_cons, Bool.and_eq_true] at h
    have h1 := h.1
    rw [Bool.and_eq_true] at h1
    have hva : validName a = true := h1.1
    have hvv : '"' ∉ v.data := by simpa using h1.2
    have h2 : wfConds cr = true := h.2
    rw [condsJoinSuffix, condTailSegs, midSeg_quote_data]
    have hre : (((" and @" ++ a ++ "=").data ++ ['"']) ++ v.data ++ '"' :: condsJoinSuffix cr) ++ [']']
        = (" and @" ++ a ++ "=").data ++ '"' :: (v.data ++ '"' :: (condsJoinSuffix cr ++ [']'])) := by
      simp [List.append_assoc]
    rw [hre, splitOnQuote_qf_quote _ (midSeg_no_quote hva),
      splitOnQuote_qf_quote _ hvv, ih h2]

theorem parseMidSeg_mid {a : String} (h : validName a = true) :
    parseMidSeg ((" and @" ++ a ++ "=").data) = some a := by
  rw [parseMidSeg, midSeg_data]
  have hparts := validName_parts h
  rw [if_pos (show ([' ', 'a', 'n', 'd', ' ', '@'] ++ (a.data ++ ['='])).take 6
      = [' ', 'a', 'n', 'd', ' ', '@'] from rfl)]
  have hdrop : ([' ', 'a', 'n', 'd', ' ', '@'] ++ (a.data ++ ['='])).drop 6
      = a.data ++ ['='] := rfl
  simp only [hdrop]
  rw [takeWhile_append_not '=' [] hparts.2 (by decide)]
  rw [if_neg (by simpa [List.isEmpty_iff] using hparts.1)]
  rw [if_pos (List.drop_left _ _), mk_data]

theorem parseCondSegs_spec : ∀ {rest : List (String × String)} (a v : String),
    wfConds rest = true →
    parseCondSegs (v.data :: condTailSegs rest) a = some ((a, v) :: rest) := by
  intro rest
  induction rest with
  | nil =>
    intro a v _
    rw [condTailSegs, parseCondSegs, if_pos ⟨rfl, rfl⟩, mk_data]
  | cons c cr ih =>
    rcases c with ⟨a2, v2⟩
    intro a v h
    rw [wfConds, List.all_cons, Bool.and_eq_true] at h
    have h1 := h.1
    rw [Bool.and_eq_true] at h1
    have ha2 : validName a2 = true := h1.1
    have h2 : wfConds cr = true := h.2
    rw [condTailSegs, parseCondSegs,
      if_neg (fun hand => midSeg_ne_close a2 hand.1),
      parseMidSeg_mid ha2]
    dsimp only
    rw [ih a2 v2 h2]
    show some ((a, (⟨v.data⟩ : String)) :: (a2, v2) :: cr) = some ((a, v) :: (a2, v2) :: cr)
    rw [mk_data]

theorem parseNameTest_star (r : List Char) : parseNameTest ('*' :: r) = some (none, r) := by
  rw [parseNameTest, if_pos (show ('*' :: r).take 1 = ['*'] from rfl)]
  rfl

theorem parseNameTest_name_append {t : String} (r : List Char) (h : validName t = true)
    (hr : r = [] ∨ ∃ c cr, r = c :: cr ∧ isNameChar c = false) :
    parseNameTest (t.data ++ r) = some (some t, r) := by
  have hparts := validName_parts h
  have hstar : ¬ (t.data ++ r).take 1 = ['*'] := by
    cases hd : t.data with
    | nil => exact absurd hd hparts.1
    | cons c0 cs =>
      have hc0 : isNameChar c0 = true := hparts.2 c0 (by simp [hd])
      intro heq
      have hc : c0 = '*' := by simpa using heq
      rw [hc] at hc0
      simp [isNameChar] at hc0
  rw [parseNameTest, if_neg hstar]
  have htw : (t.data ++ r).takeWhile isNameChar = t.data := by
    rcases hr with hnil | ⟨c, cr, hcons, hc⟩
    · rw [hnil, List.append_nil]; exact takeWhile_all hparts.2
    · rw [hcons]; exact takeWhile_append_not c cr hparts.2 hc
  simp only [htw]
  rw [if_neg (by simpa [List.isEmpty_iff] using hparts.1)]
  rw [List.drop_left, mk_data]

theorem tagChars_no_quote {tagO : Option String} (h : wfTag tagO = true) :
    '"' ∉ (tagO.getD "*").data := by
  cases tagO with
  | none => decide
  | some t => exact nameChars_no_quote (by simpa [wfTag] using h)

theorem parseNameTest_tag {tagO : Option String} (r : List Char) (h : wfTag tagO = true)
    (hr : r = [] ∨ ∃ c cr, r = c :: cr ∧ isNameChar c = false) :
    parseNameTest ((tagO.getD "*").data ++ r) = some (tagO, r) := by
  cases tagO with
  | none => exact parseNameTest_star r
  | some t => exact parseNameTest_name_append r (by simpa [wfTag] using h) hr

theorem parseNameTest_tag_nil {tagO : Option String} (h : wfTag tagO = true) :
    parseNameTest (tagO.getD "*").data = some (tagO, []) := by
  have := parseNameTest_tag [] h (Or.inl rfl)
  rwa [List.append_nil] at this

theorem parseHeadSeg_noconds {tagO : Option String} (h : wfTag tagO = true) :
    parseHeadSeg ('/' :: '/' :: (tagO.getD "*").data) false = some (tagO, none) := by
  rw [parseHeadSeg,
    if_pos (show ('/' :: '/' :: (tagO.getD "*").data).take 2 = ['/', '/'] from rfl)]
  have hd2 : ('/' :: '/' :: (tagO.getD "*").data).drop 2 = (tagO.getD "*").data := rfl
  rw [hd2, parseNameTest_tag_nil h]
  rfl

theorem parseHeadSeg_conds {tagO : Option String} {a : String}
    (h : wfTag tagO = true) (ha : validName a = true) :
    parseHeadSeg ('/' :: '/' :: ((tagO.getD "*").data ++ '[' :: '@' :: (a.data ++ ['=']))) true
      = some (tagO, some a) := by
  rw [parseHeadSeg,
    if_pos (show ('/' :: '/' :: ((tagO.getD "*").data ++ '[' :: '@' :: (a.data ++ ['=']))).take 2
      = ['/', '/'] from rfl)]
  have hd2 : ('/' :: '/' :: ((tagO.getD "*").data ++ '[' :: '@' :: (a.data ++ ['=']))).drop 2
      = (tagO.getD "*").data ++ '[' :: '@' :: (a.data ++ ['=']) := rfl
  rw [hd2,
    parseNameTest_tag _ h (Or.inr ⟨'[', '@' :: (a.data ++ ['=']), rfl, by decide⟩)]
  dsimp only
  rw [if_pos (show Bool.true = true from rfl)]
  rw [if_pos (show ('[' :: '@' :: (a.data ++ ['='])).take 2 = ['[', '@'] from rfl)]
  have hparts := validName_parts ha
  have hd2b : ('[' :: '@' :: (a.data ++ ['='])).drop 2 = a.data ++ ['='] := rfl
  simp only [hd2b]
  rw [takeWhile_append_not '=' [] hparts.2 (by decide)]
  rw [if_neg (by simpa [List.isEmpty_iff] using hparts.1)]
  rw [if_pos (List.drop_left _ _), mk_data]

theorem renderQuery_nil_data (tagO : Option String) :
    (renderQuery ⟨tagO, []⟩).data = '/' :: '/' :: (tagO.getD "*").data := by
  show ("//" ++ (tagO.getD "*") ++ "").data = _
  simp [String.data_append]

theorem renderQuery_cons_data (tagO : Option String) (a v : String)
    (rest : List (String × String)) :
    (renderQuery ⟨tagO, (a, v) :: rest⟩).data =
      ('/' :: '/' :: ((tagO.getD "*").data ++ '[' :: '@' :: (a.data ++ ['=']))) ++
        '"' :: (v.data ++ '"' :: (condsJoinSuffix rest ++ [']'])) := by
  show ("//" ++ (tagO.getD "*") ++
    ("[" ++ String.intercalate " and " (((a, v) :: rest).map renderCond) ++ "]")).data = _
  rw [List.map_cons, intercalate_eq_joinTail]
  simp only [String.data_append, joinTail_data]
  have : (renderCond (a, v)).data = '@' :: (a.data ++ ('=' :: '"' :: (v.data ++ ['"']))) := by
    show ("@" ++ a ++ "=\"" ++ v ++ "\"").data = _
    simp [String.data_append]
  rw [this]
  simp [List.append_assoc]

theorem parse_render_roundtrip : ∀ {q : XQuery}, wfQuery q = true →
    parseXPathQuery (renderQuery q) = some q := by
  intro q h
  rcases q with ⟨tagO, conds⟩
  rw [wfQuery, Bool.and_eq_true] at h
  have htag : wfTag tagO = true := h.1
  cases conds with
  | nil =>
    have hnq : '"' ∉ ('/' :: '/' :: (tagO.getD "*").data) := by
      intro hm
      rcases List.mem_cons.mp hm with h1 | hm2
      · exact absurd h1 (by decide)
      rcases List.mem_cons.mp hm2 with h3 | hm4
      · exact absurd h3 (by decide)
      exact tagChars_no_quote htag hm4
    rw [parseXPathQuery, renderQuery_nil_data, parseXPathQueryChars,
      splitOnQuote_no_quote hnq]
    dsimp only
    rw [parseHeadSeg_noconds htag]
  | cons c rest =>
    rcases c with ⟨a, v⟩
    have hconds : wfConds ((a, v) :: rest) = true := h.2
    rw [wfConds, List.all_cons, Bool.and_eq_true] at hconds
    have hc1 := hconds.1
    rw [Bool.and_eq_true] at hc1
    have ha : validName a = true := hc1.1
    have hv : '"' ∉ v.data := by simpa using hc1.2
    have h2 : wfConds rest = true := hconds.2
    have hH : '"' ∉ ('/' :: '/' :: ((tagO.getD "*").data ++ '[' :: '@' :: (a.data ++ ['=']))) := by
      intro hm
      rcases List.mem_cons.mp hm with hx | hm2
      · exact absurd hx (by decide)
      rcases List.mem_cons.mp hm2 with hx | hm3
      · exact absurd hx (by decide)
      rcases List.mem_append.mp hm3 with hm4 | hm5
      · exact tagChars_no_quote htag hm4
      rcases List.mem_cons.mp hm5 with hx | hm6
      · exact absurd hx (by decide)
      rcases List.mem_cons.mp hm6 with hx | hm7
      · exact absurd hx (by decide)
      rcases List.mem_append.mp hm7 with hm8 | hm9
      · exact nameChars_no_quote ha hm8
      · exact absurd (List.mem_singleton.mp hm9) (by decide)
    rw [parseXPathQuery, renderQuery_cons_data, parseXPathQueryChars,
      splitOnQuote_qf_quote _ hH,
      splitOnQuote_qf_quote _ hv,
      condTail_split h2]
    dsimp only
    rw [parseHeadSeg_conds htag ha]
    dsimp only
    rw [parseCondSegs_spec a v h2]
    rfl

theorem recordGet_mem {r : List (String × String)} {k v : String}
    (h : recordGet r k = some v) : (k, v) ∈ r := by
  rw [recordGet] at h
  cases hf : r.find? (fun e => e.1 = k) with
  | none => rw [hf] at h; simp at h
  | some e =>
    rw [hf] at h
    obtain ⟨e1, e2⟩ := e
    have hek : e1 = k := by simpa using List.find?_some hf
    have h2v : e2 = v := by simpa using h
    have hmem := List.mem_of_find?_eq_some hf
    rw [← hek, ← h2v]
    exact hmem

/-- Quote-free well-formedness of a node: a valid tag name, valid attribute
names, and double-quote-free attribute values — the conditions under which
the XPath strings interpolated from the node cannot be reinterpreted by the
re-parse (no quote injection). -/
def wfAttrsQuoteFree (e : Elem) : Bool :=
  validName e.tag && e.attrs.all (fun c => validName c.1 && decide ('"' ∉ c.2.data))

theorem wfAttrsQuoteFree_attr {e : Elem} (h : wfAttrsQuoteFree e = true)
    {a v : String} (hv : e.truthyAttr a = some v) :
    validName a = true ∧ '"' ∉ v.data := by
  rw [wfAttrsQuoteFree, Bool.and_eq_true] at h
  have hget : recordGet e.attrs a = some v := (truthyGet_eq_some hv).1
  have hmem : (a, v) ∈ e.attrs := recordGet_mem hget
  have := List.all_eq_true.mp h.2 _ hmem
  rw [Bool.and_eq_true] at this
  exact ⟨this.1, by simpa using this.2⟩

theorem wfAttrsQuoteFree_tag {e : Elem} (h : wfAttrsQuoteFree e = true) :
    validName e.tag = true := by
  rw [wfAttrsQuoteFree, Bool.and_eq_true] at h
  exact h.1

theorem tagForXpathOf_of_valid {e : Elem} (h : validName e.tag = true) :
    tagForXpathOf e = some e.tag := by
  rw [tagForXpathOf, if_neg]
  intro he
  rw [validName, he] at h
  simp at h

theorem wfQuery_tagOnly {e : Elem} (h : wfAttrsQuoteFree e = true) :
    wfQuery ⟨some e.tag, []⟩ = true := by
  rw [wfQuery, Bool.and_eq_true]
  exact ⟨by simpa [wfTag] using wfAttrsQuoteFree_tag h, rfl⟩

theorem wfQuery_single {e : Elem} {a v : String} (h : wfAttrsQuoteFree e = true)
    (hv : e.truthyAttr a = some v) :
    wfQuery ⟨tagForXpathOf e, [(a, v)]⟩ = true := by
  obtain ⟨ha, hqv⟩ := wfAttrsQuoteFree_attr h hv
  rw [wfQuery, Bool.and_eq_true, tagForXpathOf_of_valid (wfAttrsQuoteFree_tag h)]
  refine ⟨by simpa [wfTag] using wfAttrsQuoteFree_tag h, ?_⟩
  simp [wfConds, ha, hqv]

theorem wfQuery_pair {e : Elem} {a1 v1 a2 v2 : String} (h : wfAttrsQuoteFree e = true)
    (hv1 : e.truthyAttr a1 = some v1) (hv2 : e.truthyAttr a2 = some v2) :
    wfQuery ⟨tagForXpathOf e, [(a1, v1), (a2, v2)]⟩ = true := by
  obtain ⟨ha1, hqv1⟩ := wfAttrsQuoteFree_attr h hv1
  obtain ⟨ha2, hqv2⟩ := wfAttrsQuoteFree_attr h hv2
  rw [wfQuery, Bool.and_eq_true, tagForXpathOf_of_valid (wfAttrsQuoteFree_tag h)]
  refine ⟨by simpa [wfTag] using wfAttrsQuoteFree_tag h, ?_⟩
  simp [wfConds, ha1, hqv1, ha2, hqv2]

theorem determine_fst_true_sound {doc : XDoc} {q : XQuery} {p : Addr} {node : Elem}
    (hn : nodeAt doc p = some node) (hm : elemMatches q node = true)
    (hq : parseXPathQuery (renderQuery q) = some q)
    (hd : (determineXpathUniqueness doc q p).1 = true) :
    evalQuery doc q = [p] := by
  have hmem := mem_evalQuery_of_matches hn hm
  simp only [determineXpathUniqueness, hq] at hd
  by_cases hgt : (evalQuery doc q).length > 1
  · rw [if_pos hgt] at hd; simp at hd
  · exact mem_singleton_of_mem_of_length_lt hmem (by omega)

theorem guxNodeName_true_shape {doc : XDoc} {node : Elem} {p : Addr}
    {pn : Option String} {u : UXp}
    (hpn : pn.getD "" ≠ "")
    (h : guxNodeName doc node p pn = (some u, some true)) :
    u = .plain ⟨some node.tag, []⟩ ∧
      (determineXpathUniqueness doc ⟨some node.tag, []⟩ p).1 = true := by
  rw [guxNodeName] at h
  rcases hD : determineXpathUniqueness doc ⟨some node.tag, []⟩ p with ⟨b, oi⟩
  rw [hD] at h
  cases b with
  | false => simp at h
  | true =>
    rw [if_neg hpn] at h
    simp only [Prod.mk.injEq, Option.some.injEq] at h
    exact ⟨h.1.symm, by simp [hD]⟩

theorem guxSinglesLoop_true_shape {doc : XDoc} {node : Elem} {p : Addr}
    {tagX : Option String} :
    ∀ (l : List String) (semi : Option (XQuery × Int)) (u : UXp),
      guxSinglesLoop doc node p tagX l semi = (some u, some true) →
      ∃ a v, node.truthyAttr a = some v ∧ u = .plain ⟨tagX, [(a, v)]⟩ ∧
        (determineXpathUniqueness doc ⟨tagX, [(a, v)]⟩ p).1 = true := by
  intro l
  induction l with
  | nil =>
    intro semi u h
    cases semi with
    | none => simp [guxSinglesLoop] at h
    | some s => simp [guxSinglesLoop] at h
  | cons a rest ih =>
    intro semi u h
    rw [guxSinglesLoop] at h
    cases hv : node.truthyAttr a with
    | none => rw [hv] at h; exact ih semi u h
    | some v =>
      rw [hv] at h
      dsimp only at h
      rcases hD : determineXpathUniqueness doc ⟨tagX, [(a, v)]⟩ p with ⟨b, oi⟩
      rw [hD] at h
      cases b with
      | true =>
        simp only [Prod.mk.injEq, Option.some.injEq] at h
        exact ⟨a, v, hv, h.1.symm, by simp [hD]⟩
      | false =>
        cases oi with
        | none =>
          simp only at h
          obtain ⟨a', v', h1, h2, h3⟩ := ih semi u h
          exact ⟨a', v', h1, h2, h3⟩
        | some i =>
          simp only at h
          obtain ⟨a', v', h1, h2, h3⟩ := ih _ u h
          exact ⟨a', v', h1, h2, h3⟩

theorem guxPairsLoop_true_shape {doc : XDoc} {node : Elem} {p : Addr}
    {tagX : Option String} :
    ∀ (l : List (String × String)) (semi : Option (XQuery × Int)) (u : UXp),
      guxPairsLoop doc node p tagX l semi = (some u, some true) →
      ∃ a1 v1 a2 v2, node.truthyAttr a1 = some v1 ∧ node.truthyAttr a2 = some v2 ∧
        u = .plain ⟨tagX, [(a1, v1), (a2, v2)]⟩ ∧
        (determineXpathUniqueness doc ⟨tagX, [(a1, v1), (a2, v2)]⟩ p).1 = true := by
  intro l
  induction l with
  | nil =>
    intro semi u h
    cases semi with
    | none => simp [guxPairsLoop] at h
    | some s => simp [guxPairsLoop] at h
  | cons pr rest ih =>
    intro semi u h
    rcases pr with ⟨a1, a2⟩
    rw [guxPairsLoop] at h
    cases hv1 : node.truthyAttr a1 with
    | none => rw [hv1] at h; exact ih semi u h
    | some v1 =>
      rw [hv1] at h
      cases hv2 : node.truthyAttr a2 with
      | none => rw [hv2] at h; exact ih semi u h
      | some v2 =>
        rw [hv2] at h
        dsimp only at h
        rcases hD : determineXpathUniqueness doc ⟨tagX, [(a1, v1), (a2, v2)]⟩ p with ⟨b, oi⟩
        rw [hD] at h
        cases b with
        | true =>
          simp only [Prod.mk.injEq, Option.some.injEq] at h
          exact ⟨a1, v1, a2, v2, hv1, hv2, h.1.symm, by simp [hD]⟩
        | false =>
          cases oi with
          | none =>
            simp only at h
            obtain ⟨a1', v1', a2', v2', h1, h2, h3, h4⟩ := ih semi u h
            exact ⟨a1', v1', a2', v2', h1, h2, h3, h4⟩
          | some i =>
            simp only at h
            obtain ⟨a1', v1', a2', v2', h1, h2, h3, h4⟩ := ih _ u h
            exact ⟨a1', v1', a2', v2', h1, h2, h3, h4⟩

/-- Concrete document for the C1 counterexample: two sibling elements carry
the same `resource-id` value containing a double quote. -/
def docC1cex : XDoc :=
  ⟨[Elem.mk "hierarchy" []
     [Elem.mk "a" [("resource-id", "x\"y")] [],
      Elem.mk "a" [("resource-id", "x\"y")] []]]⟩

/-- Concrete document for the C1 injection counterexample: a single element
whose `name` value contains double quotes that reinterpret the interpolated
XPath query. -/
def docC1inj : XDoc :=
  ⟨[Elem.mk "hierarchy" [] [Elem.mk "a" [("name", "x\" and @zz=\"y")] []]]⟩

/-- C1 counterexample, in two parts.  Simple-Attribute part: the engine marks
the `id` candidate with value `x"y` as accepted (areAttrAndValueUnique strips
the quotes and the query for `xy` matches nothing, so the check passes), yet
the nodes whose `resource-id` attribute equals that exact value are two, not
exactly the target.  Generic-Path part: the value `x" and @zz="y`
interpolates to `//a[@name="x" and @zz="y"]`, which re-parses as a two-
condition query; it matches zero nodes, so determineXpathUniqueness reports
fully unique, tier 1 of getUniqueXPath (attribute `name` is first in
UNIQUE_XPATH_ATTRIBUTES) returns the expression as fully unique, and
getOptimalXPath returns the injected string — but the returned expression
evaluates to the empty node set, not to the target.  Both parts refute
uniqueness soundness as stated. -/
theorem C1_counterexample :
    (getSimpleSuggestedLocators [("resource-id", "x\"y")] (some docC1cex) true
        = [("id", "x\"y")] ∧
     nodeAt docC1cex [0, 0] = some (Elem.mk "a" [("resource-id", "x\"y")] []) ∧
     areAttrAndValueUnique "resource-id" "x\"y" (some docC1cex) = true ∧
     evalQuery docC1cex ⟨none, [("resource-id", "x\"y")]⟩ = [[0, 0], [0, 1]] ∧
     evalQuery docC1cex ⟨none, [("resource-id", "x\"y")]⟩ ≠ [[0, 0]]) ∧
    (nodeAt docC1inj [0, 0] = some (Elem.mk "a" [("name", "x\" and @zz=\"y")] []) ∧
     renderQuery ⟨some "a", [("name", "x\" and @zz=\"y")]⟩
        = "//a[@name=\"x\" and @zz=\"y\"]" ∧
     parseXPathQuery "//a[@name=\"x\" and @zz=\"y\"]"
        = some ⟨some "a", [("name", "x"), ("zz", "y")]⟩ ∧
     determineXpathUniqueness docC1inj ⟨some "a", [("name", "x\" and @zz=\"y")]⟩ [0, 0]
        = (true, none) ∧
     getUniqueXPath docC1inj (Elem.mk "a" [("name", "x\" and @zz=\"y")] []) [0, 0]
         (parentNameOf docC1inj [0, 0]) (.singles UNIQUE_XPATH_ATTRIBUTES)
        = (some (.plain ⟨some "a", [("name", "x\" and @zz=\"y")]⟩), some true) ∧
     getOptimalXPathGo docC1inj [0, 0] = some "//a[@name=\"x\" and @zz=\"y\"]" ∧
     evalUXp docC1inj (.plain ⟨some "a", [("name", "x\" and @zz=\"y")]⟩) = [] ∧
     evalUXp docC1inj (.plain ⟨some "a", [("name", "x\" and @zz=\"y")]⟩) ≠ [[0, 0]]) := by
  refine ⟨⟨rfl, rfl, rfl, rfl, ?_⟩, rfl, rfl, rfl, rfl, rfl, rfl, rfl, ?_⟩
  · decide
  · decide

/-- C1 (amended): uniqueness soundness restricted by the counterexample.
For a Simple-Attribute candidate of the target node whose value contains no
double quote, acceptance by areAttrAndValueUnique implies that the nodes
carrying that attribute value are exactly the target node.  For the Generic
Path Strategy, every expression returned as fully unique by getUniqueXPath
(at any tier) evaluates — after the same render/re-parse the program performs
— to exactly the target node, provided every tag in the document is nonempty
and the target node has a valid tag name, valid attribute names, and
double-quote-free attribute values (the counterexample shows the quote
restriction is necessary: injected quotes make the accepted expression
denote a different query). -/
theorem C1_amended_uniqueness_soundness :
    (∀ (doc : XDoc) (p : Addr) (e : Elem) (a v : String),
      nodeAt doc p = some e →
      e.getAttr a = some v →
      '"' ∉ v.data →
      areAttrAndValueUnique a v (some doc) = true →
      evalQuery doc ⟨none, [(a, v)]⟩ = [p]) ∧
    (∀ (doc : XDoc) (p : Addr) (node : Elem) (spec : AttrsSpec) (u : UXp),
      wfTags doc = true →
      wfAttrsQuoteFree node = true →
      nodeAt doc p = some node →
      getUniqueXPath doc node p (parentNameOf doc p) spec = (some u, some true) →
      evalUXp doc u = [p]) := by
  constructor
  · intro doc p e a v hn hv hq harea
    rw [areAttrAndValueUnique, stripQuotes_eq_self hq] at harea
    have hlt : (evalQuery doc ⟨none, [(a, v)]⟩).length < 2 := by
      simpa using harea
    have hmem : p ∈ evalQuery doc ⟨none, [(a, v)]⟩ :=
      mem_evalQuery_of_matches hn (by rw [elemMatches_single]; simpa using hv)
    exact mem_singleton_of_mem_of_length_lt hmem hlt
  · intro doc p node spec u hwf hqf hn hgux
    have hpn : (parentNameOf doc p).getD "" ≠ "" := parentName_ne_empty hwf hn
    cases spec with
    | singles l =>
      cases l with
      | nil =>
        obtain ⟨hu, hdet⟩ := guxNodeName_true_shape hpn hgux
        subst hu
        have hq := parse_render_roundtrip (wfQuery_tagOnly hqf)
        simp only [evalUXp, hq]
        exact determine_fst_true_sound hn (elemMatches_self_tagOnly node) hq hdet
      | cons a rest =>
        obtain ⟨a', v', hv', hu, hdet⟩ := guxSinglesLoop_true_shape (a :: rest) none u hgux
        subst hu
        have hq := parse_render_roundtrip (wfQuery_single hqf hv')
        simp only [evalUXp, hq]
        exact determine_fst_true_sound hn (elemMatches_self_single hv') hq hdet
    | pairs l =>
      cases l with
      | nil =>
        obtain ⟨hu, hdet⟩ := guxNodeName_true_shape hpn hgux
        subst hu
        have hq := parse_render_roundtrip (wfQuery_tagOnly hqf)
        simp only [evalUXp, hq]
        exact determine_fst_true_sound hn (elemMatches_self_tagOnly node) hq hdet
      | cons pr rest =>
        obtain ⟨a1, v1, a2, v2, hv1, hv2, hu, hdet⟩ :=
          guxPairsLoop_true_shape (pr :: rest) none u hgux
        subst hu
        have hq := parse_render_roundtrip (wfQuery_pair hqf hv1 hv2)
        simp only [evalUXp, hq]
        exact determine_fst_true_sound hn (elemMatches_self_pair hv1 hv2) hq hdet

/-- Concrete document for the C1 amended witness: one element with a unique,
quote-free `id`. -/
def docC1w : XDoc :=
  ⟨[Elem.mk "hierarchy" [] [Elem.mk "a" [("id", "u1")] []]]⟩

/-- C1 amended witness: both parts of the amended theorem applied at a
concrete document, discharging every hypothesis by computation. -/
theorem C1_amended_witness :
    evalQuery docC1w ⟨none, [("id", "u1")]⟩ = [[0, 0]] ∧
    evalUXp docC1w (UXp.plain ⟨some "a", [("id", "u1")]⟩) = [[0, 0]] :=
  ⟨C1_amended_uniqueness_soundness.1 docC1w [0, 0] (Elem.mk "a" [("id", "u1")] [])
      "id" "u1" rfl rfl (by decide) rfl,
   C1_amended_uniqueness_soundness.2 docC1w [0, 0] (Elem.mk "a" [("id", "u1")] [])
      (.singles UNIQUE_XPATH_ATTRIBUTES) (UXp.plain ⟨some "a", [("id", "u1")]⟩)
      (by decide) (by decide) rfl rfl⟩

/-- Modelled from the spec: the markup parser (the external @xmldom/xmldom
DOMParser used by xmlToDOM in source-parsing.ts, not part of the repository
source) never raises on the empty snapshot string or on malformed markup;
per spec section 4.1 such input degrades to a document with no element
children, from which xmlToJSON produces the empty-tree sentinel.  This
definition is that parse result. -/
def parsedEmptySnapshot : XDoc := ⟨[]⟩

mutual

theorem traverse_eq_flatMap (doc : XDoc) (isNative : Bool) (automationName : String)
    (filters : FilterOptions) (el : JSONElement) :
    traverseAndProcessElements doc el isNative automationName filters =
      (jsonPreorder el).flatMap
        (fun e => processElement doc e isNative automationName filters) := by
  cases el with
  | mk cs t as p =>
    rw [traverseAndProcessElements, jsonPreorder, List.flatMap_cons,
      traverseChildren_eq_flatMap doc isNative automationName filters cs]

theorem traverseChildren_eq_flatMap (doc : XDoc) (isNative : Bool)
    (automationName : String) (filters : FilterOptions) (els : List JSONElement) :
    traverseChildren doc els isNative automationName filters =
      (jsonPreorderL els).flatMap
        (fun e => processElement doc e isNative automationName filters) := by
  cases els with
  | nil => rfl
  | cons e rest =>
    rw [traverseChildren, jsonPreorderL, List.flatMap_append,
      traverse_eq_flatMap doc isNative automationName filters e,
      traverseChildren_eq_flatMap doc isNative automationName filters rest]

end

/-- The traversal processes every element of the (pre-order) element list
independently: the output is the concatenation of each element's own
processing. -/
theorem generateAll_eq_flatMap (doc : XDoc) (isNative : Bool)
    (automationName : String) (filters : FilterOptions) :
    generateAllElementLocators doc isNative automationName filters =
      (jsonPreorder (xmlToJSON doc)).flatMap
        (fun e => processElement doc e isNative automationName filters) := by
  rw [generateAllElementLocators, traverse_eq_flatMap]

/-- C3: for the parse result of the empty snapshot string (and of any
malformed markup) the engine returns the empty result list without raising,
for every platform kind and every filter configuration.  The sentinel
element itself is traversed, but generating its locators fails on the empty
document (findDOMNodeByPath) and the error is caught at the node level. -/
theorem C3_empty_snapshot_no_results :
    (∀ (isNative : Bool) (automationName : String) (filters : FilterOptions),
      generateAllElementLocators parsedEmptySnapshot isNative automationName filters = []) ∧
    xmlToJSON parsedEmptySnapshot = JSONElement.mk [] "" [] [] := by
  refine ⟨?_, rfl⟩
  intro isNative automationName filters
  rw [generateAllElementLocators]
  show traverseAndProcessElements parsedEmptySnapshot (JSONElement.mk [] "" [] [])
      isNative automationName filters = []
  rw [traverseAndProcessElements, traverseChildren, List.append_nil, processElement]
  by_cases h : shouldIncludeElement (JSONElement.mk [] "" [] []) filters isNative automationName
  · rw [if_neg (by simpa using h)]
    rfl
  · rw [if_pos (by simpa using h)]

/-- processElement, restated positively: an included element contributes its
transformed record when locator generation succeeds and nothing when the
escaped error is caught; an excluded element contributes nothing. -/
theorem processElement_eq (doc : XDoc) (el : JSONElement) (isNative : Bool)
    (automationName : String) (filters : FilterOptions) :
    processElement doc el isNative automationName filters =
      (if shouldIncludeElement el filters isNative automationName then
        match getSuggestedLocatorsE el doc isNative automationName with
        | .ok locs => [transformElementWithLocators el locs]
        | .error _ => []
      else []) := by
  rw [processElement]
  by_cases h : shouldIncludeElement el filters isNative automationName
  · rw [if_neg (by simpa using h), if_pos h]
  · rw [if_pos (by simpa using h), if_neg h]

/-- C4 counterexample: for the root element (JSON path is the empty string,
so findDOMNodeByPath yields `undefined`) every complex strategy throws on
the `undefined` node; the error is caught and logged inside the strategy
(modelled by the strategy returning `none`), yet the node is NOT omitted —
the result still lists it with its simple locator.  So an error thrown while
generating a node's complex-strategy candidates does not always cause the
node to be skipped. -/
theorem C4_counterexample :
    (xmlToJSON (⟨[Elem.mk "hierarchy" [("id", "x")] []]⟩ : XDoc)).path = [] ∧
    findDOMNodeByPathE ⟨[Elem.mk "hierarchy" [("id", "x")] []]⟩ [] = .ok .undefRef ∧
    getOptimalXPathRef ⟨[Elem.mk "hierarchy" [("id", "x")] []]⟩ .undefRef = none ∧
    getOptimalUiAutomatorSelectorE ⟨[Elem.mk "hierarchy" [("id", "x")] []]⟩ .undefRef [] = none ∧
    generateAllElementLocators ⟨[Elem.mk "hierarchy" [("id", "x")] []]⟩ true "uiautomator2"
        ⟨none, some [], none, none, none, none⟩ =
      [⟨"hierarchy", [("id", "x")], "", "", "", false, false, false⟩] :=
  ⟨rfl, rfl, rfl, rfl, rfl⟩

/-- C4 (amended): the engine's output is a per-element concatenation over the
pre-order listing — each element's contribution depends only on that element,
so an error for one node never affects the others or its descendants' own
processing.  A node is omitted exactly when the filter rejects it or when an
error escapes getSuggestedLocators to the node level (for example the
document-lookup failure); errors caught inside an individual strategy only
suppress that strategy's entry and leave the node in the result. -/
theorem C4_amended_node_error_isolation :
    ∀ (doc : XDoc) (isNative : Bool) (automationName : String) (filters : FilterOptions),
      generateAllElementLocators doc isNative automationName filters =
        (jsonPreorder (xmlToJSON doc)).flatMap (fun el =>
          if shouldIncludeElement el filters isNative automationName then
            match getSuggestedLocatorsE el doc isNative automationName with
            | .ok locs => [transformElementWithLocators el locs]
            | .error _ => []
          else []) := by
  intro doc isNative automationName filters
  rw [generateAll_eq_flatMap]
  simp only [processElement_eq]

theorem matchesTagFilters_not_excluded {el : JSONElement} {inc ex : List String}
    (h : matchesTagFilters el inc ex = true) : el.tagName ∉ ex := by
  rw [matchesTagFilters] at h
  by_cases h1 : inc.length > 0 ∧ ¬ inc.contains el.tagName
  · rw [if_pos h1] at h; exact absurd h (by simp)
  · rw [if_neg h1] at h
    by_cases h2 : ex.contains el.tagName
    · rw [if_pos h2] at h; exact absurd h (by simp)
    · simpa using h2

theorem shouldInclude_matchesTagFilters {el : JSONElement} {f : FilterOptions}
    {isNative : Bool} {automationName : String}
    (h : shouldIncludeElement el f isNative automationName = true) :
    matchesTagFilters el (f.includeTagNames.getD []) (f.excludeTagNames.getD ["hierarchy"])
      = true := by
  simp only [shouldIncludeElement] at h
  by_cases hm : matchesTagFilters el (f.includeTagNames.getD [])
      (f.excludeTagNames.getD ["hierarchy"]) = true
  · exact hm
  · rw [if_pos (by simpa using hm)] at h
    exact absurd h (by simp)

/-- C9: exclusion correctness.  First part: when the configuration's
excludeTagNames contains a tag, no result with that tag name appears.
Second part: every pre-order element that passes the filter and whose
locator generation succeeds appears in the output — in particular the
descendants of an excluded element are still evaluated independently. -/
theorem C9_exclusion_correctness :
    (∀ (doc : XDoc) (isNative : Bool) (automationName : String)
        (filters : FilterOptions) (ex : List String) (T : String),
      filters.excludeTagNames = some ex → T ∈ ex →
      ∀ r ∈ generateAllElementLocators doc isNative automationName filters,
        r.tagName ≠ T) ∧
    (∀ (doc : XDoc) (isNative : Bool) (automationName : String)
        (filters : FilterOptions) (el : JSONElement) (locs : List (String × String)),
      el ∈ jsonPreorder (xmlToJSON doc) →
      shouldIncludeElement el filters isNative automationName = true →
      getSuggestedLocatorsE el doc isNative automationName = .ok locs →
      transformElementWithLocators el locs ∈
        generateAllElementLocators doc isNative automationName filters) := by
  constructor
  · intro doc isNative automationName filters ex T hex hT r hr
    rw [generateAll_eq_flatMap] at hr
    obtain ⟨el, _, hproc⟩ := List.mem_flatMap.mp hr
    rw [processElement_eq] at hproc
    by_cases hinc : shouldIncludeElement el filters isNative automationName
    · rw [if_pos hinc] at hproc
      have hnotex := matchesTagFilters_not_excluded
        (shouldInclude_matchesTagFilters (by simpa using hinc))
      rw [hex] at hnotex
      simp only [Option.getD_some] at hnotex
      cases hgen : getSuggestedLocatorsE el doc isNative automationName with
      | error e => rw [hgen] at hproc; simp at hproc
      | ok locs =>
        rw [hgen] at hproc
        rcases List.mem_singleton.mp hproc with rfl
        intro habs
        rw [show (transformElementWithLocators el locs).tagName = el.tagName from rfl] at habs
        exact hnotex (habs ▸ hT)
    · rw [if_neg hinc] at hproc
      simp at hproc
  · intro doc isNative automationName filters el locs hel hinc hgen
    rw [generateAll_eq_flatMap]
    apply List.mem_flatMap.mpr
    refine ⟨el, hel, ?_⟩
    rw [processElement_eq, if_pos (by simpa using hinc), hgen]
    exact List.mem_singleton_self _

/-- Concrete document for the C9 witness: a `Container` element (to be
excluded) wrapping a `Button`. -/
def docC9w : XDoc :=
  ⟨[Elem.mk "hierarchy" []
     [Elem.mk "Container" []
       [Elem.mk "Button" [("resource-id", "b"), ("clickable", "true")] []]]]⟩

/-- Filter configuration for the C9 witness: excludes `Container` (and the
wrapper). -/
def filtersC9w : FilterOptions := ⟨none, some ["Container", "hierarchy"], none, none, none, none⟩

/-- JSON element of the `Button` inside the excluded `Container`. -/
def elC9w : JSONElement :=
  .mk [] "Button" [("resource-id", "b"), ("clickable", "true")] [0, 0]

/-- Locators computed for the C9 witness button. -/
def locsC9w : List (String × String) :=
  [("id", "b"),
   ("xpath", "//Button[@resource-id=\"b\"]"),
   ("-android uiautomator", "new UiSelector().resourceId(\"b\")")]

/-- C9 witness: with `Container` excluded, the produced result (the button's
record) does not carry the excluded tag, and the button — a descendant of the
excluded container — still appears in the output. -/
theorem C9_witness :
    (transformElementWithLocators elC9w locsC9w).tagName ≠ "Container" ∧
    transformElementWithLocators elC9w locsC9w ∈
      generateAllElementLocators docC9w true "uiautomator2" filtersC9w := by
  constructor
  · exact C9_exclusion_correctness.1 docC9w true "uiautomator2" filtersC9w
      ["Container", "hierarchy"] "Container" rfl (by decide)
      (transformElementWithLocators elC9w locsC9w) (by decide)
  · exact C9_exclusion_correctness.2 docC9w true "uiautomator2" filtersC9w elC9w locsC9w
      (by rw [show jsonPreorder (xmlToJSON docC9w) =
            [xmlToJSON docC9w,
             JSONElement.mk [elC9w] "Container" [] [0], elC9w] from rfl]
          exact List.mem_cons_of_mem _ (List.mem_cons_of_mem _ (List.mem_cons_self _ _)))
      rfl rfl

theorem recordSet_keys {r : List (String × String)} {k v : String} {kv : String × String}
    (h : kv ∈ recordSet r k v) : kv.1 = k ∨ kv.1 ∈ r.map Prod.fst := by
  rw [recordSet] at h
  by_cases hc : r.any (fun e => e.1 = k)
  · rw [if_pos hc] at h
    obtain ⟨e, he, heq⟩ := List.mem_map.mp h
    by_cases hek : e.1 = k
    · rw [if_pos hek] at heq; left; rw [← heq]
    · rw [if_neg hek] at heq
      right
      exact heq ▸ List.mem_map_of_mem Prod.fst he
  · rw [if_neg hc] at h
    rcases List.mem_append.mp h with h1 | h2
    · right; exact List.mem_map_of_mem Prod.fst h1
    · left; rcases List.mem_singleton.mp h2 with rfl; rfl

theorem recordSet_keys_sub {r : List (String × String)} {k v x : String}
    (h : x ∈ (recordSet r k v).map Prod.fst) : x = k ∨ x ∈ r.map Prod.fst := by
  obtain ⟨kv, hkv, hx⟩ := List.mem_map.mp h
  rcases recordSet_keys hkv with h1 | h2
  · left; rw [← hx, h1]
  · right; rw [← hx]; exact h2

theorem recordMerge_keys {b a : List (String × String)} {kv : String × String}
    (h : kv ∈ recordMerge a b) : kv.1 ∈ a.map Prod.fst ∨ kv.1 ∈ b.map Prod.fst := by
  induction b generalizing a with
  | nil => left; exact List.mem_map_of_mem Prod.fst h
  | cons x xs ih =>
    have hh : kv ∈ recordMerge (recordSet a x.1 x.2) xs := h
    rcases ih hh with h1 | h2
    · rcases recordSet_keys_sub h1 with he | hm
      · right; rw [he]; exact List.mem_map_of_mem Prod.fst (List.mem_cons_self x xs)
      · left; exact hm
    · right
      rcases List.mem_map.mp h2 with ⟨e, he, hx⟩
      exact hx ▸ List.mem_map_of_mem Prod.fst (List.mem_cons_of_mem x he)

theorem simpleLoop_keys (attributes : List (String × String)) (sourceDoc : Option XDoc)
    (isNative : Bool) :
    ∀ (mappings res : List (String × String)) (kv : String × String),
      kv ∈ simpleLoop attributes sourceDoc isNative mappings res →
      kv.1 ∈ res.map Prod.fst ∨ kv.1 ∈ mappings.map Prod.snd := by
  intro mappings
  induction mappings with
  | nil =>
    intro res kv h
    rw [simpleLoop] at h
    left; exact List.mem_map_of_mem Prod.fst h
  | cons m rest ih =>
    intro res kv h
    rcases m with ⟨al, strategy⟩
    rw [simpleLoop] at h
    by_cases hweb : strategy = "accessibility id" ∧ isNative = false
    · rw [if_pos hweb] at h
      rcases ih res kv h with h1 | h2
      · exact Or.inl h1
      · exact Or.inr (List.mem_cons_of_mem _ h2)
    · rw [if_neg hweb] at h
      cases hv : truthyGet attributes al with
      | none =>
        rw [hv] at h
        rcases ih res kv h with h1 | h2
        · exact Or.inl h1
        · exact Or.inr (List.mem_cons_of_mem _ h2)
      | some value =>
        rw [hv] at h
        dsimp only at h
        by_cases hu : areAttrAndValueUnique al value sourceDoc
        · rw [if_pos hu] at h
          rcases ih (recordSet res strategy value) kv h with h1 | h2
          · rcases recordSet_keys_sub h1 with he | hm
            · right; rw [he]; exact List.mem_map_of_mem Prod.snd (List.mem_cons_self _ _)
            · exact Or.inl hm
          · exact Or.inr (List.mem_cons_of_mem _ h2)
        · rw [if_neg hu] at h
          rcases ih res kv h with h1 | h2
          · exact Or.inl h1
          · exact Or.inr (List.mem_cons_of_mem _ h2)

theorem simple_keys {attributes : List (String × String)} {sourceDoc : Option XDoc}
    {isNative : Bool} {kv : String × String}
    (h : kv ∈ getSimpleSuggestedLocators attributes sourceDoc isNative) :
    kv.1 = "accessibility id" ∨ kv.1 = "id" ∨ kv.1 = "class name" := by
  rcases simpleLoop_keys attributes sourceDoc isNative SIMPLE_STRATEGY_MAPPINGS [] kv h with
    h1 | h2
  · simp at h1
  · simpa [SIMPLE_STRATEGY_MAPPINGS] using h2

theorem filterMap_opt_keys {l : List (String × Option String)} {kv : String × String}
    (h : kv ∈ l.filterMap (fun e => e.2.map (fun v => (e.1, v)))) :
    kv.1 ∈ l.map Prod.fst := by
  obtain ⟨e, he, heq⟩ := List.mem_filterMap.mp h
  cases hv : e.2 with
  | none => rw [hv] at heq; simp at heq
  | some v =>
    rw [hv] at heq
    have heq' : (e.1, v) = kv := by simpa using heq
    rw [← heq']
    exact List.mem_map_of_mem Prod.fst he

theorem complex_keys_ios {doc : XDoc} {path : List Nat} {automationName : String}
    {L : List (String × String)}
    (hauto : automationName = "xcuitest" ∨ automationName = "mac2")
    (h : getComplexSuggestedLocatorsE doc path true automationName = .ok L) :
    ∀ kv ∈ L, kv.1 ∈ ["-ios class chain", "-ios predicate string", "xpath"] := by
  rw [getComplexSuggestedLocatorsE] at h
  cases hf : findDOMNodeByPathE doc path with
  | error e =>
    rw [hf] at h
    exact absurd h (by simp [Except.bind])
  | ok domNode =>
    rw [hf] at h
    have h' : Except.ok (ε := String) (([("-ios class chain",
        match getOptimalClassChainRef doc domNode with
        | some s => if s = "" then none else some ("**" ++ s)
        | none => none),
       ("-ios predicate string", getOptimalPredicateStringRef doc domNode)] ++
       [("xpath", getOptimalXPathRef doc domNode)]).filterMap
         (fun e => e.2.map (fun v => (e.1, v)))) = .ok L := by
      rw [← h]
      show _ = Except.bind (Except.ok domNode) _
      rw [show ∀ (x : NodeRef) (f : NodeRef → Except String (List (String × String))),
            Except.bind (Except.ok x) f = f x from fun x f => rfl]
      rw [if_pos ⟨rfl, hauto⟩]
      rfl
    rw [Except.ok.injEq] at h'
    intro kv hkv
    rw [← h'] at hkv
    have := filterMap_opt_keys hkv
    simpa using this

/-- The keys of the priority-ordered portion of getSuggestedLocators are the
priority keys whose entry is truthy, in priority-list order. -/
theorem sorted_keys_eq_filter (all : List (String × String)) :
    ∀ prio : List String,
      ((prio.filterMap (fun strategy =>
          match truthyGet all strategy with
          | some v => some (strategy, v)
          | none => none)).map Prod.fst) =
        prio.filter (fun s => (truthyGet all s).isSome) := by
  intro prio
  induction prio with
  | nil => rfl
  | cons s rest ih =>
    cases h : truthyGet all s with
    | some v => simp [List.filterMap_cons, List.filter_cons, h, ih]
    | none => simp [List.filterMap_cons, List.filter_cons, h, ih]

/-- Membership in the priority-ordered portion forces the corresponding
truthy entry. -/
theorem mem_sorted_truthy (all : List (String × String)) (s0 v : String) :
    ∀ prio : List String,
      (s0, v) ∈ (prio.filterMap (fun strategy =>
          match truthyGet all strategy with
          | some w => some (strategy, w)
          | none => none)) →
      truthyGet all s0 = some v := by
  intro prio
  induction prio with
  | nil => intro h; simp at h
  | cons s rest ih =>
    intro h
    cases hs : truthyGet all s with
    | none =>
      rw [List.filterMap_cons, hs] at h
      exact ih h
    | some w =>
      rw [List.filterMap_cons, hs] at h
      rcases List.mem_cons.mp h with heq | hmem
      · have h1 : s0 = s ∧ v = w := by simpa using heq
        rw [h1.1, h1.2, hs]
      · exact ih hmem

/-- C2: priority ordering on native predicate-string platforms.  The key
sequence of the result is a sublist of the fixed priority list
id, accessibility id, -ios predicate string, -ios class chain, xpath,
class name (present keys in that order, absent ones omitted; no key outside
the list occurs on this platform, so the appended remainder is empty), and
whenever both an id entry and an accessibility id entry are present the
result starts with the id entry followed immediately by the accessibility id
entry. -/
theorem C2_priority_ordering :
    ∀ (doc : XDoc) (el : JSONElement) (automationName : String)
      (L : List (String × String)),
      (automationName = "xcuitest" ∨ automationName = "mac2") →
      getSuggestedLocatorsE el doc true automationName = .ok L →
      List.Sublist (L.map Prod.fst) iosPriorityOrder ∧
      (∀ v w, ("id", v) ∈ L → ("accessibility id", w) ∈ L →
        ∃ tl, L = ("id", v) :: ("accessibility id", w) :: tl) := by
  intro doc el automationName L hauto h
  rw [getSuggestedLocatorsE] at h
  cases hcx : getComplexSuggestedLocatorsE doc el.path true automationName with
  | error e =>
    rw [hcx] at h
    exact absurd h (by simp [Except.bind])
  | ok C =>
    rw [hcx] at h
    set simple := getSimpleSuggestedLocators el.attributes (some doc) true with hsimple
    set all := recordMerge simple C with hall
    have hprio : priorityOrderFor true automationName = iosPriorityOrder := by
      rw [priorityOrderFor, if_pos ⟨rfl, hauto⟩]
    have hL : (iosPriorityOrder.filterMap (fun strategy =>
          match truthyGet all strategy with
          | some v => some (strategy, v)
          | none => none)) ++
        (all.filter (fun kv => ¬ iosPriorityOrder.contains kv.1)) = L := by
      rw [← hprio]
      have : Except.ok (ε := String)
          ((priorityOrderFor true automationName).filterMap (fun strategy =>
            match truthyGet all strategy with
            | some v => some (strategy, v)
            | none => none) ++
          (all.filter (fun kv => ¬ (priorityOrderFor true automationName).contains kv.1)))
          = .ok L := h
      exact Except.ok.inj this
    have hkeys : ∀ kv ∈ all, kv.1 ∈ iosPriorityOrder := by
      intro kv hkv
      rcases recordMerge_keys hkv with h1 | h2
      · obtain ⟨e, he, hfst⟩ := List.mem_map.mp h1
        rcases simple_keys he with h3 | h3 | h3 <;>
          · rw [← hfst, h3]; simp [iosPriorityOrder]
      · obtain ⟨e, he, hfst⟩ := List.mem_map.mp h2
        have h4 : e.1 = "-ios class chain" ∨ e.1 = "-ios predicate string" ∨ e.1 = "xpath" := by
          simpa using complex_keys_ios hauto hcx e he
        rw [← hfst]
        rcases h4 with h3 | h3 | h3 <;> (rw [h3]; simp [iosPriorityOrder])
    have hrest : all.filter (fun kv => ¬ iosPriorityOrder.contains kv.1) = [] := by
      rw [List.filter_eq_nil_iff]
      intro kv hkv
      simp only [decide_not, Bool.not_eq_true', decide_eq_false_iff_not, Decidable.not_not]
      simpa using hkeys kv hkv
    rw [hrest, List.append_nil] at hL
    constructor
    · rw [← hL, sorted_keys_eq_filter]
      exact List.filter_sublist iosPriorityOrder
    · intro v w hid hacc
      rw [← hL] at hid hacc
      have hid' := mem_sorted_truthy all "id" v iosPriorityOrder hid
      have hacc' := mem_sorted_truthy all "accessibility id" w iosPriorityOrder hacc
      refine ⟨(["-ios predicate string", "-ios class chain", "xpath",
          "class name"].filterMap (fun strategy =>
            match truthyGet all strategy with
            | some v => some (strategy, v)
            | none => none)), ?_⟩
      rw [← hL]
      show (("id" :: "accessibility id" :: ["-ios predicate string", "-ios class chain",
          "xpath", "class name"]).filterMap _) = _
      rw [List.filterMap_cons, hid', List.filterMap_cons, hacc']

/-- Concrete document for the C2 witness: one element with both a `name` and
an `id` attribute, so both an accessibility-id and an id simple candidate
exist. -/
def docC2w : XDoc :=
  ⟨[Elem.mk "hierarchy" [] [Elem.mk "a" [("name", "n"), ("id", "i")] []]]⟩

/-- JSON element of the C2 witness target. -/
def elC2w : JSONElement := .mk [] "a" [("name", "n"), ("id", "i")] [0]

/-- Result list computed for the C2 witness on xcuitest. -/
def locsC2w : List (String × String) :=
  [("id", "i"),
   ("accessibility id", "n"),
   ("-ios predicate string", "name == \"n\""),
   ("-ios class chain", "**/a[`name == \"n\"`]"),
   ("xpath", "//a[@name=\"n\"]")]

/-- C2 witness: the theorem applied on xcuitest to a node carrying both an
id-based and an accessibility-id candidate; the key sequence follows the
priority list and the id entry immediately precedes the accessibility id
entry. -/
theorem C2_witness :
    List.Sublist (locsC2w.map Prod.fst) iosPriorityOrder ∧
    ∃ tl, locsC2w = ("id", "i") :: ("accessibility id", "n") :: tl := by
  have h := C2_priority_ordering docC2w elC2w "xcuitest" locsC2w (Or.inl rfl) rfl
  exact ⟨h.1, h.2 "i" "n" (by decide) (by decide)⟩

/-- First non-none value of `f` over a list, in order (specification-side
helper used to state the first-hit policies of getOptimalXPath). -/
def firstSome {α β : Type} (f : α → Option β) : List α → Option β
  | [] => none
  | a :: l =>
    match f a with
    | some b => some b
    | none => firstSome f l

/-- The fully unique expression of a getUniqueXPath result, if any. -/
def fullyUniqueOf (r : Option UXp × Option Bool) : Option UXp :=
  if r.2 = some true then r.1 else none

/-- The semi-unique expression of a getUniqueXPath result, if any. -/
def semiUniqueOf (r : Option UXp × Option Bool) : Option UXp :=
  if r.2 = some false then r.1 else none

/-- Per-attribute outcome of the single-attribute tiers: the query, when the
attribute is present and its query is fully unique. -/
def singleUniqueOutcome (doc : XDoc) (node : Elem) (addr : Addr)
    (tagX : Option String) (a : String) : Option XQuery :=
  match node.truthyAttr a with
  | none => none
  | some v =>
    match determineXpathUniqueness doc ⟨tagX, [(a, v)]⟩ addr with
    | (true, _) => some ⟨tagX, [(a, v)]⟩
    | (false, _) => none

/-- Per-attribute outcome of the single-attribute tiers: the query and match
index, when the attribute is present and its query is semi-unique. -/
def singleSemiOutcome (doc : XDoc) (node : Elem) (addr : Addr)
    (tagX : Option String) (a : String) : Option (XQuery × Int) :=
  match node.truthyAttr a with
  | none => none
  | some v =>
    match determineXpathUniqueness doc ⟨tagX, [(a, v)]⟩ addr with
    | (false, some i) => some (⟨tagX, [(a, v)]⟩, i)
    | _ => none

/-- Per-pair outcome of the attribute-pair tier (fully unique case). -/
def pairUniqueOutcome (doc : XDoc) (node : Elem) (addr : Addr)
    (tagX : Option String) (pr : String × String) : Option XQuery :=
  match node.truthyAttr pr.1, node.truthyAttr pr.2 with
  | some v1, some v2 =>
    match determineXpathUniqueness doc ⟨tagX, [(pr.1, v1), (pr.2, v2)]⟩ addr with
    | (true, _) => some ⟨tagX, [(pr.1, v1), (pr.2, v2)]⟩
    | (false, _) => none
  | _, _ => none

/-- Per-pair outcome of the attribute-pair tier (semi-unique case). -/
def pairSemiOutcome (doc : XDoc) (node : Elem) (addr : Addr)
    (tagX : Option String) (pr : String × String) : Option (XQuery × Int) :=
  match node.truthyAttr pr.1, node.truthyAttr pr.2 with
  | some v1, some v2 =>
    match determineXpathUniqueness doc ⟨tagX, [(pr.1, v1), (pr.2, v2)]⟩ addr with
    | (false, some i) => some (⟨tagX, [(pr.1, v1), (pr.2, v2)]⟩, i)
    | _ => none
  | _, _ => none

/-- The single-attribute loop realizes the first-hit policy: the first fully
unique attribute (in list order) wins immediately; otherwise the first
semi-unique attribute — with an already-held candidate taking precedence —
is returned as semi-unique; otherwise nothing. -/
theorem guxSinglesLoop_spec (doc : XDoc) (node : Elem) (addr : Addr) (tagX : Option String) :
    ∀ (l : List String) (semi : Option (XQuery × Int)),
      guxSinglesLoop doc node addr tagX l semi =
        (match firstSome (singleUniqueOutcome doc node addr tagX) l with
         | some q => (some (.plain q), some true)
         | none =>
           match (match semi with
                  | some si => some si
                  | none => firstSome (singleSemiOutcome doc node addr tagX) l) with
           | some qi => (some (.indexed qi.1 (qi.2 + 1)), some false)
           | none => (none, none)) := by
  intro l
  induction l with
  | nil =>
    intro semi
    cases semi with
    | none => rfl
    | some si => rfl
  | cons a rest ih =>
    intro semi
    cases hv : node.truthyAttr a with
    | none =>
      simp only [guxSinglesLoop, firstSome, singleUniqueOutcome, singleSemiOutcome, hv]
      exact ih semi
    | some v =>
      rcases hD : determineXpathUniqueness doc ⟨tagX, [(a, v)]⟩ addr with ⟨b, oi⟩
      cases b with
      | true =>
        simp only [guxSinglesLoop, firstSome, singleUniqueOutcome, hv, hD]
      | false =>
        cases oi with
        | none =>
          simp only [guxSinglesLoop, firstSome, singleUniqueOutcome, singleSemiOutcome,
            hv, hD]
          exact ih semi
        | some i =>
          cases semi with
          | none =>
            simp only [guxSinglesLoop, firstSome, singleUniqueOutcome, singleSemiOutcome,
              hv, hD, Option.isNone_none, if_pos]
            exact ih (some (⟨tagX, [(a, v)]⟩, i))
          | some si =>
            simp only [guxSinglesLoop, firstSome, singleUniqueOutcome, singleSemiOutcome,
              hv, hD, Option.isNone_some, Bool.false_eq_true, if_false]
            exact ih (some si)

/-- The attribute-pair loop realizes the same first-hit policy as the
single-attribute loop, over pairs in list order. -/
theorem guxPairsLoop_spec (doc : XDoc) (node : Elem) (addr : Addr) (tagX : Option String) :
    ∀ (l : List (String × String)) (semi : Option (XQuery × Int)),
      guxPairsLoop doc node addr tagX l semi =
        (match firstSome (pairUniqueOutcome doc node addr tagX) l with
         | some q => (some (.plain q), some true)
         | none =>
           match (match semi with
                  | some si => some si
                  | none => firstSome (pairSemiOutcome doc node addr tagX) l) with
           | some qi => (some (.indexed qi.1 (qi.2 + 1)), some false)
           | none => (none, none)) := by
  intro l
  induction l with
  | nil =>
    intro semi
    cases semi with
    | none => rfl
    | some si => rfl
  | cons pr rest ih =>
    intro semi
    rcases pr with ⟨a1, a2⟩
    cases hv1 : node.truthyAttr a1 with
    | none =>
      simp only [guxPairsLoop, firstSome, pairUniqueOutcome, pairSemiOutcome, hv1]
      exact ih semi
    | some v1 =>
      cases hv2 : node.truthyAttr a2 with
      | none =>
        simp only [guxPairsLoop, firstSome, pairUniqueOutcome, pairSemiOutcome, hv1, hv2]
        exact ih semi
      | some v2 =>
        rcases hD : determineXpathUniqueness doc ⟨tagX, [(a1, v1), (a2, v2)]⟩ addr with ⟨b, oi⟩
        cases b with
        | true =>
          simp only [guxPairsLoop, firstSome, pairUniqueOutcome, hv1, hv2, hD]
        | false =>
          cases oi with
          | none =>
            simp only [guxPairsLoop, firstSome, pairUniqueOutcome, pairSemiOutcome,
              hv1, hv2, hD]
            exact ih semi
          | some i =>
            cases semi with
            | none =>
              simp only [guxPairsLoop, firstSome, pairUniqueOutcome, pairSemiOutcome,
                hv1, hv2, hD, Option.isNone_none, if_pos]
              exact ih (some (⟨tagX, [(a1, v1), (a2, v2)]⟩, i))
            | some si =>
              simp only [guxPairsLoop, firstSome, pairUniqueOutcome, pairSemiOutcome,
                hv1, hv2, hD, Option.isNone_some, Bool.false_eq_true, if_false]
              exact ih (some si)

/-- Every getUniqueXPath result has one of three shapes: a fully unique
expression, a semi-unique expression, or no candidate at all. -/
theorem getUniqueXPath_shape (doc : XDoc) (node : Elem) (addr : Addr)
    (pn : Option String) (spec : AttrsSpec) :
    (∃ u, getUniqueXPath doc node addr pn spec = (some u, some true)) ∨
    (∃ u, getUniqueXPath doc node addr pn spec = (some u, some false)) ∨
    getUniqueXPath doc node addr pn spec = (none, none) := by
  have hnn : ∀ pn', (∃ u, guxNodeName doc node addr pn' = (some u, some true)) ∨
      (∃ u, guxNodeName doc node addr pn' = (some u, some false)) ∨
      guxNodeName doc node addr pn' = (none, none) := by
    intro pn'
    rw [guxNodeName]
    rcases hD : determineXpathUniqueness doc ⟨some node.tag, []⟩ addr with ⟨b, oi⟩
    cases b with
    | true =>
      by_cases hp : pn'.getD "" = ""
      · exact Or.inl ⟨.rootTag node.tag, by rw [if_pos hp]⟩
      · exact Or.inl ⟨.plain ⟨some node.tag, []⟩, by rw [if_neg hp]⟩
    | false => exact Or.inr (Or.inr rfl)
  cases spec with
  | singles l =>
    cases l with
    | nil => exact hnn pn
    | cons a rest =>
      rw [show getUniqueXPath doc node addr pn (.singles (a :: rest)) =
        guxSinglesLoop doc node addr (tagForXpathOf node) (a :: rest) none from rfl]
      rw [guxSinglesLoop_spec]
      cases firstSome (singleUniqueOutcome doc node addr (tagForXpathOf node)) (a :: rest) with
      | some q => exact Or.inl ⟨.plain q, rfl⟩
      | none =>
        cases firstSome (singleSemiOutcome doc node addr (tagForXpathOf node)) (a :: rest) with
        | some qi => exact Or.inr (Or.inl ⟨.indexed qi.1 (qi.2 + 1), rfl⟩)
        | none => exact Or.inr (Or.inr rfl)
  | pairs l =>
    cases l with
    | nil => exact hnn pn
    | cons pr rest =>
      rw [show getUniqueXPath doc node addr pn (.pairs (pr :: rest)) =
        guxPairsLoop doc node addr (tagForXpathOf node) (pr :: rest) none from rfl]
      rw [guxPairsLoop_spec]
      cases firstSome (pairUniqueOutcome doc node addr (tagForXpathOf node)) (pr :: rest) with
      | some q => exact Or.inl ⟨.plain q, rfl⟩
      | none =>
        cases firstSome (pairSemiOutcome doc node addr (tagForXpathOf node)) (pr :: rest) with
        | some qi => exact Or.inr (Or.inl ⟨.indexed qi.1 (qi.2 + 1), rfl⟩)
        | none => exact Or.inr (Or.inr rfl)

/-- The tier loop of getOptimalXPath returns the first fully unique tier
expression if any tier has one; otherwise the first semi-unique tier
expression held from the earliest tier (an already-held candidate taking
precedence); otherwise nothing. -/
theorem xpathCasesLoop_spec (doc : XDoc) (node : Elem) (addr : Addr) (pn : Option String) :
    ∀ (cs : List AttrsSpec) (semi : Option UXp),
      xpathCasesLoop doc node addr pn cs semi =
        (match firstSome (fun c => fullyUniqueOf (getUniqueXPath doc node addr pn c)) cs with
         | some u => some u
         | none =>
           match semi with
           | some s => some s
           | none =>
             firstSome (fun c => semiUniqueOf (getUniqueXPath doc node addr pn c)) cs) := by
  intro cs
  induction cs with
  | nil =>
    intro semi
    cases semi with
    | none => rfl
    | some s => rfl
  | cons c rest ih =>
    intro semi
    rcases getUniqueXPath_shape doc node addr pn c with ⟨u, hu⟩ | ⟨u, hu⟩ | hu
    · simp [xpathCasesLoop, firstSome, fullyUniqueOf, semiUniqueOf, hu]
    · have hfu : fullyUniqueOf (getUniqueXPath doc node addr pn c) = none := by
        rw [hu]; rfl
      have hsu : semiUniqueOf (getUniqueXPath doc node addr pn c) = some u := by
        rw [hu]; rfl
      have hfu2 : firstSome (fun c => fullyUniqueOf (getUniqueXPath doc node addr pn c))
          (c :: rest) =
          firstSome (fun c => fullyUniqueOf (getUniqueXPath doc node addr pn c)) rest := by
        simp only [firstSome, hfu]
      cases semi with
      | none =>
        have hl : xpathCasesLoop doc node addr pn (c :: rest) none =
            xpathCasesLoop doc node addr pn rest (some u) := by
          simp only [xpathCasesLoop, hu, Option.isNone_none, if_pos]
        rw [hl, ih (some u), hfu2]
        rw [show firstSome (fun c => semiUniqueOf (getUniqueXPath doc node addr pn c))
            (c :: rest) = some u from by simp only [firstSome, hsu]]
      | some s =>
        have hl : xpathCasesLoop doc node addr pn (c :: rest) (some s) =
            xpathCasesLoop doc node addr pn rest (some s) := by
          simp only [xpathCasesLoop, hu]
        rw [hl, ih (some s), hfu2]
    · have hfu : fullyUniqueOf (getUniqueXPath doc node addr pn c) = none := by
        rw [hu]; rfl
      have hsu : semiUniqueOf (getUniqueXPath doc node addr pn c) = none := by
        rw [hu]; rfl
      have hl : xpathCasesLoop doc node addr pn (c :: rest) semi =
          xpathCasesLoop doc node addr pn rest semi := by
        cases semi with
        | none => simp only [xpathCasesLoop, hu]
        | some s => simp only [xpathCasesLoop, hu]
      rw [hl, ih semi]
      simp only [firstSome, hfu, hsu]

/-- When the tier loop yields an expression, getOptimalXPath returns its
rendering (no hierarchical fallback is consulted). -/
theorem getOptimalXPathGo_of_tier {doc : XDoc} {addr : Addr} {node : Elem} {u : UXp}
    (hn : nodeAt doc addr = some node) (ht : node.tag ≠ "")
    (hloop : xpathCasesLoop doc node addr (parentNameOf doc addr) xpathCases none = some u) :
    getOptimalXPathGo doc addr = some (renderUXp u) := by
  cases addr with
  | nil => rw [show nodeAt doc [] = none from rfl] at hn; exact absurd hn (by simp)
  | cons i rest =>
    show getOptimalXPathFuel doc (rest.length + 1) (i :: rest) = some (renderUXp u)
    rw [getOptimalXPathFuel, hn]
    dsimp only
    rw [if_neg ht, hloop]

/-- C6: the first-hit policy of the Generic Path tier search.  Tier level:
the loop over the four tiers returns the first fully unique tier expression
when one exists; otherwise the first semi-unique tier expression in tier
order; otherwise nothing (hierarchical fallback).  Attribute level: within a
single-attribute or attribute-pair tier the returned fully unique candidate
is the first such attribute in list order, and the semi-unique fallback is
the first semi-unique attribute in list order.  Finally, a tier-loop hit is
exactly what getOptimalXPath renders and returns. -/
theorem C6_first_semi_unique_fallback :
    (∀ (doc : XDoc) (node : Elem) (addr : Addr) (pn : Option String),
      xpathCasesLoop doc node addr pn xpathCases none =
        (match firstSome (fun c => fullyUniqueOf (getUniqueXPath doc node addr pn c))
            xpathCases with
         | some u => some u
         | none =>
           firstSome (fun c => semiUniqueOf (getUniqueXPath doc node addr pn c))
             xpathCases)) ∧
    (∀ (doc : XDoc) (node : Elem) (addr : Addr) (tagX : Option String) (l : List String),
      guxSinglesLoop doc node addr tagX l none =
        (match firstSome (singleUniqueOutcome doc node addr tagX) l with
         | some q => (some (.plain q), some true)
         | none =>
           match firstSome (singleSemiOutcome doc node addr tagX) l with
           | some qi => (some (.indexed qi.1 (qi.2 + 1)), some false)
           | none => (none, none))) ∧
    (∀ (doc : XDoc) (node : Elem) (addr : Addr) (tagX : Option String)
        (l : List (String × String)),
      guxPairsLoop doc node addr tagX l none =
        (match firstSome (pairUniqueOutcome doc node addr tagX) l with
         | some q => (some (.plain q), some true)
         | none =>
           match firstSome (pairSemiOutcome doc node addr tagX) l with
           | some qi => (some (.indexed qi.1 (qi.2 + 1)), some false)
           | none => (none, none))) ∧
    (∀ (doc : XDoc) (addr : Addr) (node : Elem) (u : UXp),
      nodeAt doc addr = some node → node.tag ≠ "" →
      xpathCasesLoop doc node addr (parentNameOf doc addr) xpathCases none = some u →
      getOptimalXPathGo doc addr = some (renderUXp u)) := by
  refine ⟨?_, ?_, ?_, ?_⟩
  · intro doc node addr pn
    rw [xpathCasesLoop_spec]
  · intro doc node addr tagX l
    rw [guxSinglesLoop_spec]
  · intro doc node addr tagX l
    rw [guxPairsLoop_spec]
  · intro doc addr node u hn ht hloop
    exact getOptimalXPathGo_of_tier hn ht hloop

/-- Concrete document for the C6 witness: two identical siblings whose `id`
is shared, so tier 1 yields only a semi-unique candidate, later tiers yield
nothing, and the loop returns that first semi-unique candidate. -/
def docC6w : XDoc :=
  ⟨[Elem.mk "hierarchy" [] [Elem.mk "a" [("id", "x")] [], Elem.mk "a" [("id", "x")] []]]⟩

/-- C6 witness: all four parts instantiated at the first duplicate sibling;
the tier loop holds the first semi-unique candidate `(//a[@id="x"])[1]` and
getOptimalXPath returns its rendering. -/
theorem C6_witness :
    xpathCasesLoop docC6w (Elem.mk "a" [("id", "x")] []) [0, 0]
        (parentNameOf docC6w [0, 0]) xpathCases none =
      (match firstSome (fun c => fullyUniqueOf (getUniqueXPath docC6w
          (Elem.mk "a" [("id", "x")] []) [0, 0] (parentNameOf docC6w [0, 0]) c))
          xpathCases with
       | some u => some u
       | none =>
         firstSome (fun c => semiUniqueOf (getUniqueXPath docC6w
           (Elem.mk "a" [("id", "x")] []) [0, 0] (parentNameOf docC6w [0, 0]) c))
           xpathCases) ∧
    guxSinglesLoop docC6w (Elem.mk "a" [("id", "x")] []) [0, 0] (some "a")
        UNIQUE_XPATH_ATTRIBUTES none =
      (match firstSome (singleUniqueOutcome docC6w (Elem.mk "a" [("id", "x")] [])
          [0, 0] (some "a")) UNIQUE_XPATH_ATTRIBUTES with
       | some q => (some (.plain q), some true)
       | none =>
         match firstSome (singleSemiOutcome docC6w (Elem.mk "a" [("id", "x")] [])
             [0, 0] (some "a")) UNIQUE_XPATH_ATTRIBUTES with
         | some qi => (some (.indexed qi.1 (qi.2 + 1)), some false)
         | none => (none, none)) ∧
    guxPairsLoop docC6w (Elem.mk "a" [("id", "x")] []) [0, 0] (some "a")
        attrPairsPermutations none =
      (match firstSome (pairUniqueOutcome docC6w (Elem.mk "a" [("id", "x")] [])
          [0, 0] (some "a")) attrPairsPermutations with
       | some q => (some (.plain q), some true)
       | none =>
         match firstSome (pairSemiOutcome docC6w (Elem.mk "a" [("id", "x")] [])
             [0, 0] (some "a")) attrPairsPermutations with
         | some qi => (some (.indexed qi.1 (qi.2 + 1)), some false)
         | none => (none, none)) ∧
    getOptimalXPathGo docC6w [0, 0] = some "(//a[@id=\"x\"])[1]" :=
  ⟨C6_first_semi_unique_fallback.1 docC6w (Elem.mk "a" [("id", "x")] []) [0, 0]
      (parentNameOf docC6w [0, 0]),
   C6_first_semi_unique_fallback.2.1 docC6w (Elem.mk "a" [("id", "x")] []) [0, 0]
      (some "a") UNIQUE_XPATH_ATTRIBUTES,
   C6_first_semi_unique_fallback.2.2.1 docC6w (Elem.mk "a" [("id", "x")] []) [0, 0]
      (some "a") attrPairsPermutations,
   C6_first_semi_unique_fallback.2.2.2 docC6w [0, 0] (Elem.mk "a" [("id", "x")] [])
      (UXp.indexed ⟨some "a", [("id", "x")]⟩ 1) rfl (by decide) rfl⟩

/-- Concrete document for the C7 counterexample: the root tag `hierarchy` is
unique in the document, and the target node is the tree root itself. -/
def docC7cex : XDoc := ⟨[Elem.mk "hierarchy" [] [Elem.mk "a" [] []]]⟩

/-- C7 counterexample: for the uniquely-tagged tree root the engine returns
the double-slash form `//hierarchy`, not the single-slash form `/hierarchy`
the claim expects.  The root special case tests
`!domNode.parentNode?.nodeName`, but the root element's parent is the DOM
document node whose nodeName is the nonempty string `#document`, so the
branch never fires. -/
theorem C7_counterexample :
    (evalQuery docC7cex ⟨some "hierarchy", []⟩).length = 1 ∧
    nodeAt docC7cex [0] = some (Elem.mk "hierarchy" [] [Elem.mk "a" [] []]) ∧
    parentNameOf docC7cex [0] = some "#document" ∧
    getUniqueXPath docC7cex (Elem.mk "hierarchy" [] [Elem.mk "a" [] []]) [0]
        (parentNameOf docC7cex [0]) (.singles []) =
      (some (.plain ⟨some "hierarchy", []⟩), some true) ∧
    renderUXp (.plain ⟨some "hierarchy", []⟩) = "//hierarchy" ∧
    getOptimalXPathGo docC7cex [0] = some "//hierarchy" ∧
    "//hierarchy" ≠ "/hierarchy" :=
  ⟨rfl, rfl, rfl, rfl, rfl, rfl, by decide⟩

/-- C7 (amended): in the tag-name tier, `//tag` is accepted only when truly
unique — the tier never produces a semi-unique candidate — and the returned
expression is always the double-slash form, including for the tree root,
because every element's parent (the document node for the root, whose
nodeName is `#document`) has a nonempty nodeName, so the single-slash
special case is unreachable. -/
theorem C7_amended_tag_name_tier :
    ∀ (doc : XDoc) (addr : Addr) (node : Elem),
      wfTags doc = true →
      nodeAt doc addr = some node →
      ((getUniqueXPath doc node addr (parentNameOf doc addr) (.singles []) = (none, none) ∧
        (determineXpathUniqueness doc ⟨some node.tag, []⟩ addr).1 = false) ∨
       (getUniqueXPath doc node addr (parentNameOf doc addr) (.singles []) =
          (some (.plain ⟨some node.tag, []⟩), some true) ∧
        (determineXpathUniqueness doc ⟨some node.tag, []⟩ addr).1 = true)) := by
  intro doc addr node hwf hn
  have hpn := parentName_ne_empty hwf hn
  rcases hD : determineXpathUniqueness doc ⟨some node.tag, []⟩ addr with ⟨b, oi⟩
  cases b with
  | true =>
    right
    refine ⟨?_, rfl⟩
    show guxNodeName doc node addr (parentNameOf doc addr) =
      (some (.plain ⟨some node.tag, []⟩), some true)
    simp only [guxNodeName, hD]
    rw [if_neg hpn]
  | false =>
    left
    refine ⟨?_, rfl⟩
    show guxNodeName doc node addr (parentNameOf doc addr) = (none, none)
    simp only [guxNodeName, hD]

/-- C7 amended witness: the theorem applied at the counterexample document's
root node; the tier result is the (fully unique) double-slash form. -/
theorem C7_amended_witness :
    (getUniqueXPath docC7cex (Elem.mk "hierarchy" [] [Elem.mk "a" [] []]) [0]
        (parentNameOf docC7cex [0]) (.singles []) = (none, none) ∧
      (determineXpathUniqueness docC7cex ⟨some "hierarchy", []⟩ [0]).1 = false) ∨
    (getUniqueXPath docC7cex (Elem.mk "hierarchy" [] [Elem.mk "a" [] []]) [0]
        (parentNameOf docC7cex [0]) (.singles []) =
      (some (.plain ⟨some "hierarchy", []⟩), some true) ∧
      (determineXpathUniqueness docC7cex ⟨some "hierarchy", []⟩ [0]).1 = true) :=
  C7_amended_tag_name_tier docC7cex [0] (Elem.mk "hierarchy" [] [Elem.mk "a" [] []])
    (by decide) rfl

/-- The element children of the first document child (the hierarchy root), as
getOptimalUiAutomatorSelector computes them. -/
def hierarchyChildrenOf (doc : XDoc) : List Elem :=
  match doc.children[0]? with
  | none => []
  | some h => h.children

/-- C8: the Scoped-Selector (UiAutomator) strategy addresses only elements
inside the last direct child of the hierarchy root.  First part: for an
element target whose top-level path ordinal differs from the index of the
root's last direct child, the strategy returns null.  Second part: whenever
the strategy returns an actual selector for an element target, the target's
top-level ordinal equals that last-child index. -/
theorem C8_scoped_selector_last_child_only :
    (∀ (doc : XDoc) (addr : Addr) (node : Elem) (path : List Nat),
      nodeAt doc addr = some node →
      node.tag ≠ "" →
      hierarchyChildrenOf doc ≠ [] →
      path.head? ≠ some ((hierarchyChildrenOf doc).length - 1) →
      getOptimalUiAutomatorSelectorE doc (.elem addr) path = none) ∧
    (∀ (doc : XDoc) (addr : Addr) (path : List Nat) (s : String),
      getOptimalUiAutomatorSelectorE doc (.elem addr) path = some s →
      s ≠ "" →
      ∃ p0 prest h, path = p0 :: prest ∧ doc.children[0]? = some h ∧
        p0 = h.children.length - 1) := by
  constructor
  · intro doc addr node path hn ht hne hhead
    cases hc : doc.children[0]? with
    | none => exact absurd (by rw [hierarchyChildrenOf, hc]) hne
    | some h =>
      have hchildren : hierarchyChildrenOf doc = h.children := by
        rw [hierarchyChildrenOf, hc]
      rw [hchildren] at hne hhead
      cases path with
      | nil =>
        simp only [getOptimalUiAutomatorSelectorE, hn, if_neg ht, hc]
        rw [if_neg (by simpa using hne)]
      | cons p0 prest =>
        have hp0 : p0 ≠ h.children.length - 1 := by
          intro habs
          exact hhead (by rw [List.head?_cons, habs])
        simp only [getOptimalUiAutomatorSelectorE, hn, if_neg ht, hc]
        rw [if_neg (by simpa using hne), if_pos hp0]
  · intro doc addr path s hres hs
    cases hn : nodeAt doc addr with
    | none =>
      rw [show getOptimalUiAutomatorSelectorE doc (.elem addr) path = none from by
        simp only [getOptimalUiAutomatorSelectorE, hn]] at hres
      exact absurd hres (by simp)
    | some node =>
      by_cases ht : node.tag = ""
      · rw [show getOptimalUiAutomatorSelectorE doc (.elem addr) path = some "" from by
          simp only [getOptimalUiAutomatorSelectorE, hn, if_pos ht]] at hres
        rw [Option.some_inj] at hres
        exact absurd hres.symm hs
      · cases hc : doc.children[0]? with
        | none =>
          rw [show getOptimalUiAutomatorSelectorE doc (.elem addr) path = none from by
            simp only [getOptimalUiAutomatorSelectorE, hn, if_neg ht, hc]
            rfl] at hres
          exact absurd hres (by simp)
        | some h =>
          by_cases hne : h.children = []
          · rw [show getOptimalUiAutomatorSelectorE doc (.elem addr) path = none from by
              simp only [getOptimalUiAutomatorSelectorE, hn, if_neg ht, hc]
              rw [if_pos (by simpa using hne)]] at hres
            exact absurd hres (by simp)
          · cases path with
            | nil =>
              rw [show getOptimalUiAutomatorSelectorE doc (.elem addr) [] = none from by
                simp only [getOptimalUiAutomatorSelectorE, hn, if_neg ht, hc]
                rw [if_neg (by simpa using hne)]] at hres
              exact absurd hres (by simp)
            | cons p0 prest =>
              by_cases hp0 : p0 = h.children.length - 1
              · exact ⟨p0, prest, h, rfl, rfl, hp0⟩
              · rw [show getOptimalUiAutomatorSelectorE doc (.elem addr) (p0 :: prest)
                    = none from by
                  simp only [getOptimalUiAutomatorSelectorE, hn, if_neg ht, hc]
                  rw [if_neg (by simpa using hne), if_pos hp0]] at hres
                exact absurd hres (by simp)

/-- Concrete document for the C8 witness: the hierarchy root has two direct
children; only elements inside the second (last) one are addressable. -/
def docC8w : XDoc :=
  ⟨[Elem.mk "hierarchy" []
     [Elem.mk "a" [("resource-id", "r")] [], Elem.mk "b" [("resource-id", "s")] []]]⟩

/-- C8 witness: the first child (top-level ordinal 0, last-child index 1)
receives no scoped selector; for the second child the strategy produces a
selector, and the theorem recovers that its top-level ordinal equals the
last-child index. -/
theorem C8_witness :
    getOptimalUiAutomatorSelectorE docC8w (.elem [0, 0]) [0] = none ∧
    (∃ p0 prest h, [1] = p0 :: prest ∧ docC8w.children[0]? = some h ∧
      p0 = h.children.length - 1) :=
  ⟨C8_scoped_selector_last_child_only.1 docC8w [0, 0]
      (Elem.mk "a" [("resource-id", "r")] []) [0] rfl (by decide)
      (by rw [show hierarchyChildrenOf docC8w = Elem.mk "a" [("resource-id", "r")] [] ::
            [Elem.mk "b" [("resource-id", "s")] []] from rfl]
          exact List.cons_ne_nil _ _)
      (by decide),
   C8_scoped_selector_last_child_only.2 docC8w [0, 1] [1]
      "new UiSelector().resourceId(\"s\")" rfl (by decide)⟩

theorem recordSet_mem {r : List (String × String)} {k v : String} {kv : String × String}
    (h : kv ∈ recordSet r k v) : kv ∈ r ∨ kv = (k, v) := by
  rw [recordSet] at h
  by_cases hc : r.any (fun e => e.1 = k)
  · rw [if_pos hc] at h
    obtain ⟨e, he, heq⟩ := List.mem_map.mp h
    by_cases hek : e.1 = k
    · rw [if_pos hek] at heq; right; rw [← heq]
    · rw [if_neg hek] at heq; left; rw [← heq]; exact he
  · rw [if_neg hc] at h
    rcases List.mem_append.mp h with h1 | h2
    · exact Or.inl h1
    · exact Or.inr (List.mem_singleton.mp h2)

theorem escapeNewlines_no_newline (s : String) : '\n' ∉ (escapeNewlines s).data := by
  rw [escapeNewlines]
  intro h
  obtain ⟨c, _, hmem⟩ := List.mem_flatMap.mp h
  by_cases hcn : c = '\n'
  · rw [if_pos hcn] at hmem
    simp at hmem
  · rw [if_neg hcn] at hmem
    have : '\n' = c := by simpa using hmem
    exact hcn this.symm

theorem foldl_escape_values :
    ∀ (as acc : List (String × String)),
      (∀ kv ∈ acc, '\n' ∉ kv.2.data) →
      ∀ kv ∈ as.foldl (fun r kv => recordSet r kv.1 (escapeNewlines kv.2)) acc,
        '\n' ∉ kv.2.data := by
  intro as
  induction as with
  | nil => intro acc hacc kv h; exact hacc kv h
  | cons x rest ih =>
    intro acc hacc kv h
    refine ih (recordSet acc x.1 (escapeNewlines x.2)) ?_ kv h
    intro kv' hkv'
    rcases recordSet_mem hkv' with h1 | h2
    · exact hacc kv' h1
    · rw [h2]
      exact escapeNewlines_no_newline x.2

theorem escapeAttrs_no_newline {as : List (String × String)} {kv : String × String}
    (h : kv ∈ escapeAttrs as) : '\n' ∉ kv.2.data :=
  foldl_escape_values as [] (by intro kv' h'; simp at h') kv h

theorem simpleLoop_values (attributes : List (String × String)) (sourceDoc : Option XDoc)
    (isNative : Bool) :
    ∀ (mappings res : List (String × String)) (kv : String × String),
      kv ∈ simpleLoop attributes sourceDoc isNative mappings res →
      kv ∈ res ∨ ∃ al, truthyGet attributes al = some kv.2 ∧
        areAttrAndValueUnique al kv.2 sourceDoc = true := by
  intro mappings
  induction mappings with
  | nil =>
    intro res kv h
    rw [simpleLoop] at h
    exact Or.inl h
  | cons m rest ih =>
    intro res kv h
    rcases m with ⟨al, strategy⟩
    rw [simpleLoop] at h
    by_cases hweb : strategy = "accessibility id" ∧ isNative = false
    · rw [if_pos hweb] at h
      exact ih res kv h
    · rw [if_neg hweb] at h
      cases hv : truthyGet attributes al with
      | none =>
        rw [hv] at h
        exact ih res kv h
      | some value =>
        rw [hv] at h
        dsimp only at h
        by_cases hu : areAttrAndValueUnique al value sourceDoc
        · rw [if_pos hu] at h
          rcases ih (recordSet res strategy value) kv h with h1 | h2
          · rcases recordSet_mem h1 with h3 | h4
            · exact Or.inl h3
            · right
              refine ⟨al, ?_, ?_⟩
              · rw [h4, hv]
              · rw [h4]
                simpa using hu
          · exact Or.inr h2
        · rw [if_neg hu] at h
          exact ih res kv h

mutual

/-- Every element of the JSON pre-order produced by translateRec corresponds
to a DOM node reachable from the translated element: its path addresses that
node relative to the given base, its tag name is the node's, and its
attributes are the node's attributes with newlines escaped. -/
theorem translateRec_mem_spec (e : Elem) (p0 : List Nat) :
    ∀ el ∈ jsonPreorder (translateRec e p0),
      ∃ q e', getNodeIn e q = some e' ∧ el.path = p0 ++ q ∧
        el.tagName = e'.tag ∧ el.attributes = escapeAttrs e'.attrs := by
  cases e with
  | mk t as cs =>
    intro el hel
    rw [translateRec, jsonPreorder] at hel
    rcases List.mem_cons.mp hel with heq | hmem
    · subst heq
      exact ⟨[], Elem.mk t as cs, rfl, by simp [JSONElement.path], rfl, rfl⟩
    · obtain ⟨j, q, c, e', hj, hq, hpath, htag, hattrs⟩ :=
        translateRecL_mem_spec cs p0 0 el hmem
      refine ⟨j :: q, e', ?_, ?_, htag, hattrs⟩
      · rw [getNodeIn]
        show (match (Elem.mk t as cs).children[j]? with
          | some c => getNodeIn c q
          | none => none) = some e'
        rw [show (Elem.mk t as cs).children = cs from rfl, hj]
        exact hq
      · rw [hpath]
        simp

/-- List version of translateRec_mem_spec, tracking the starting child
index. -/
theorem translateRecL_mem_spec (cs : List Elem) (p0 : List Nat) (i : Nat) :
    ∀ el ∈ jsonPreorderL (translateRecL cs p0 i),
      ∃ j q c e', cs[j]? = some c ∧ getNodeIn c q = some e' ∧
        el.path = p0 ++ [i + j] ++ q ∧
        el.tagName = e'.tag ∧ el.attributes = escapeAttrs e'.attrs := by
  cases cs with
  | nil => intro el hel; rw [translateRecL, jsonPreorderL] at hel; exact absurd hel (by simp)
  | cons c rest =>
    intro el hel
    rw [translateRecL, jsonPreorderL] at hel
    rcases List.mem_append.mp hel with hl | hr
    · obtain ⟨q, e', hq, hpath, htag, hattrs⟩ := translateRec_mem_spec c (p0 ++ [i]) el hl
      refine ⟨0, q, c, e', by simp, hq, ?_, htag, hattrs⟩
      rw [hpath]
      simp
    · obtain ⟨j, q, c', e', hj, hq, hpath, htag, hattrs⟩ :=
        translateRecL_mem_spec rest p0 (i + 1) el hr
      refine ⟨j + 1, q, c', e', ?_, hq, ?_, htag, hattrs⟩
      · simpa using hj
      · rw [hpath]
        have : i + 1 + j = i + (j + 1) := by omega
        rw [this]

end

/-- C10: newline escaping in xmlToJSON and its downstream use.  (1) Escaped
values are newline-free.  (2) Every JSON element produced by xmlToJSON
corresponds to a DOM node whose attributes it carries in escaped form
(so every JSON attribute value is an escaped DOM value).  (3) All escaped
attribute records are newline-free.  (4) Every emitted simple-locator value
is one of the element's (escaped, newline-free) JSON attribute values, and
the uniqueness check was performed with that escaped value — not with the
original DOM value. -/
theorem C10_newline_escaping :
    (∀ s : String, '\n' ∉ (escapeNewlines s).data) ∧
    (∀ (doc : XDoc) (root : Elem), doc.children[0]? = some root →
      ∀ el ∈ jsonPreorder (xmlToJSON doc),
        ∃ q e', getNodeIn root q = some e' ∧ el.path = q ∧
          el.tagName = e'.tag ∧ el.attributes = escapeAttrs e'.attrs) ∧
    (∀ (as : List (String × String)) (kv : String × String),
      kv ∈ escapeAttrs as → '\n' ∉ kv.2.data) ∧
    (∀ (doc : XDoc) (el : JSONElement) (isNative : Bool) (st v : String),
      (∀ kv ∈ el.attributes, '\n' ∉ kv.2.data) →
      (st, v) ∈ getSimpleSuggestedLocators el.attributes (some doc) isNative →
      '\n' ∉ v.data ∧
      ∃ al, recordGet el.attributes al = some v ∧
        areAttrAndValueUnique al v (some doc) = true) := by
  refine ⟨escapeNewlines_no_newline, ?_, fun as kv h => escapeAttrs_no_newline h, ?_⟩
  · intro doc root hroot el hel
    rw [xmlToJSON, hroot] at hel
    obtain ⟨q, e', hq, hpath, htag, hattrs⟩ := translateRec_mem_spec root [] el hel
    exact ⟨q, e', hq, by simpa using hpath, htag, hattrs⟩
  · intro doc el isNative st v hnl hmem
    rcases simpleLoop_values el.attributes (some doc) isNative
        SIMPLE_STRATEGY_MAPPINGS [] (st, v) hmem with h1 | h2
    · simp at h1
    · obtain ⟨al, htruthy, harea⟩ := h2
      obtain ⟨hget, _⟩ := truthyGet_eq_some htruthy
      exact ⟨hnl (al, v) (recordGet_mem hget), al, hget, harea⟩

/-- Concrete document for the C10 witness: one element whose `id` value
contains a newline. -/
def docC10w : XDoc :=
  ⟨[Elem.mk "hierarchy" [] [Elem.mk "a" [("id", "x\ny")] []]]⟩

/-- JSON element of the C10 witness target: its `id` value is the escaped
two-character-backslash-n form. -/
def elC10w : JSONElement := .mk [] "a" [("id", "x\\ny")] [0]

/-- C10 witness: all four parts at the concrete newline-carrying document —
the escaped value is newline-free, the JSON tree stores escaped attributes
of the corresponding DOM nodes, and the emitted simple `id` locator uses the
escaped value, which is also what the uniqueness check consumed. -/
theorem C10_witness :
    ('\n' ∉ (escapeNewlines "x\ny").data) ∧
    (∃ q e', getNodeIn (Elem.mk "hierarchy" [] [Elem.mk "a" [("id", "x\ny")] []]) q
        = some e' ∧ elC10w.path = q ∧ elC10w.tagName = e'.tag ∧
        elC10w.attributes = escapeAttrs e'.attrs) ∧
    ('\n' ∉ ("x\\ny" : String).data) ∧
    (∃ al, recordGet elC10w.attributes al = some "x\\ny" ∧
      areAttrAndValueUnique al "x\\ny" (some docC10w) = true) := by
  refine ⟨C10_newline_escaping.1 "x\ny", ?_, ?_, ?_⟩
  · exact C10_newline_escaping.2.1 docC10w
      (Elem.mk "hierarchy" [] [Elem.mk "a" [("id", "x\ny")] []]) rfl elC10w
      (by rw [show jsonPreorder (xmlToJSON docC10w) =
            [xmlToJSON docC10w, elC10w] from rfl]
          exact List.mem_cons_of_mem _ (List.mem_cons_self _ _))
  · exact (C10_newline_escaping.2.2.2 docC10w elC10w true "id" "x\\ny"
      (by decide) (by decide)).1
  · exact (C10_newline_escaping.2.2.2 docC10w elC10w true "id" "x\\ny"
      (by decide) (by decide)).2
